import Mathlib

/-!
# Particle filter (`particle_filter.cpp`)

A shallow embedding of the localisation particle filter: `init`, `prediction`,
`dataAssociation`, `updateWeights`, `resample` and the annotation accessors.

Numbers of C++ type `double` are elements of an arbitrary linearly ordered field `R`
(exact arithmetic).  The functions of the C math library and of `<random>` are not part of
the translation unit; they are passed in as the records `MathLib` and `RandomLib`.
-/

namespace ParticleFilter

/-! ## Data model -/

/-- The functions and constants of `<math.h>` used by the filter. -/
structure MathLib (R : Type) where
  cos : R → R
  sin : R → R
  exp : R → R
  sqrt : R → R
  pi : R

/-- The part of `<random>` used by the filter.  `G` is the state of a
`default_random_engine`; a distribution object is represented by its parameters and
drawing from it returns the value together with the advanced engine. -/
structure RandomLib (R G : Type) where
  defaultEngine : G
  normal : R → R → G → R × G
  uniformReal : R → R → G → R × G
  uniformInt : Int → Int → G → Int × G

/-- The struct `Particle`. -/
structure Particle (R : Type) where
  id : Int
  x : R
  y : R
  theta : R
  weight : R
  associations : List Int
  sense_x : List R
  sense_y : List R
deriving DecidableEq

/-- The struct `LandmarkObs`. -/
structure LandmarkObs (R : Type) where
  id : Int
  x : R
  y : R
deriving DecidableEq

/-- The struct `Map::single_landmark_s`. -/
structure single_landmark_s (R : Type) where
  id_i : Int
  x_f : R
  y_f : R

/-- The class `Map`. -/
structure Map (R : Type) where
  landmark_list : List (single_landmark_s R)

/-- The data members of `ParticleFilter` together with the shared engine `gen`. -/
structure FilterState (R G : Type) where
  num_particles : Int
  is_initialized : Bool
  particles : List (Particle R)
  gen : G
deriving DecidableEq

section Defs

variable {R G : Type} [LinearOrderedField R]

/-! ## `init` -/

/-- The `for` loop of `init` (lines 36-45): `n` iterations left, loop counter `i`, local
engine `g`, particles pushed so far `ps`. -/
def initLoop (rnd : RandomLib R G) (x y theta : R) (std : Nat → R) :
    Nat → Int → G → List (Particle R) → List (Particle R)
  | 0, _, _, ps => ps
  | n + 1, i, g, ps =>
    let dx := rnd.normal x (std 0) g
    let dy := rnd.normal y (std 1) dx.2
    let dt := rnd.normal theta (std 2) dy.2
    initLoop rnd x y theta std n (i + 1) dt.2
      (ps ++ [{ id := i, x := dx.1, y := dy.1, theta := dt.1, weight := 1,
                associations := [], sense_x := [], sense_y := [] }])

/-- `ParticleFilter::init`. -/
def init (rnd : RandomLib R G) (x y theta : R) (std : Nat → R)
    (st : FilterState R G) : FilterState R G :=
  if st.is_initialized then st
  else
    let st1 : FilterState R G := { st with num_particles := 100 }
    let ps := initLoop rnd x y theta std st1.num_particles.toNat 0 rnd.defaultEngine
      st1.particles
    { st1 with particles := ps, is_initialized := true }

/-! ## `prediction` -/

/-- The body of the loop of `prediction` (lines 56-69) for one particle `p`, drawing the
three noise values from the shared engine `g`.  The field updates are kept in the order of
the source. -/
def predictionStep (mth : MathLib R) (rnd : RandomLib R G) (delta_t : R) (std_pos : Nat → R)
    (velocity yaw_rate : R) (p : Particle R) (g : G) : Particle R × G :=
  let p1 : Particle R :=
    if |yaw_rate| < 0.00001 then
      let q : Particle R := { p with x := p.x + velocity * delta_t * mth.cos p.theta }
      { q with y := q.y + velocity * delta_t * mth.sin q.theta }
    else
      let q : Particle R := { p with x := p.x + velocity / yaw_rate *
        (mth.sin (p.theta + yaw_rate * delta_t) - mth.sin p.theta) }
      let q : Particle R := { q with y := q.y + velocity / yaw_rate *
        (mth.cos q.theta - mth.cos (q.theta + yaw_rate * delta_t)) }
      { q with theta := q.theta + yaw_rate * delta_t }
  let nx := rnd.normal 0 (std_pos 0) g
  let p2 : Particle R := { p1 with x := p1.x + nx.1 }
  let ny := rnd.normal 0 (std_pos 1) nx.2
  let p3 : Particle R := { p2 with y := p2.y + ny.1 }
  let nt := rnd.normal 0 (std_pos 2) ny.2
  ({ p3 with theta := p3.theta + nt.1 }, nt.2)

/-- The loop `for (auto& p : particles)` of `prediction`, threading the engine. -/
def predictionLoop (mth : MathLib R) (rnd : RandomLib R G) (delta_t : R) (std_pos : Nat → R)
    (velocity yaw_rate : R) : List (Particle R) → G → List (Particle R) × G
  | [], g => ([], g)
  | p :: ps, g =>
    let r := predictionStep mth rnd delta_t std_pos velocity yaw_rate p g
    let rest := predictionLoop mth rnd delta_t std_pos velocity yaw_rate ps r.2
    (r.1 :: rest.1, rest.2)

/-- `ParticleFilter::prediction`. -/
def prediction (mth : MathLib R) (rnd : RandomLib R G) (delta_t : R) (std_pos : Nat → R)
    (velocity yaw_rate : R) (st : FilterState R G) : FilterState R G :=
  let r := predictionLoop mth rnd delta_t std_pos velocity yaw_rate st.particles st.gen
  { st with particles := r.1, gen := r.2 }

/-- The noise triples drawn by `prediction` for `n` particles, in particle order, when the
shared engine starts in state `g`. -/
def predictionNoise (rnd : RandomLib R G) (std_pos : Nat → R) : Nat → G → List (R × R × R)
  | 0, _ => []
  | n + 1, g =>
    let nx := rnd.normal 0 (std_pos 0) g
    let ny := rnd.normal 0 (std_pos 1) nx.2
    let nt := rnd.normal 0 (std_pos 2) ny.2
    (nx.1, ny.1, nt.1) :: predictionNoise rnd std_pos n nt.2

/-- The piecewise CTRV reference: the pose reached from `(x, y, h)` with noise
`(nx, ny, nh)`, every component computed from the heading `h` before the update. -/
def ctrvReference (mth : MathLib R) (delta_t v w : R) (pose noise : R × R × R) : R × R × R :=
  if |w| < 0.00001 then
    (pose.1 + v * delta_t * mth.cos pose.2.2 + noise.1,
     pose.2.1 + v * delta_t * mth.sin pose.2.2 + noise.2.1,
     pose.2.2 + noise.2.2)
  else
    (pose.1 + v / w * (mth.sin (pose.2.2 + w * delta_t) - mth.sin pose.2.2) + noise.1,
     pose.2.1 + v / w * (mth.cos pose.2.2 - mth.cos (pose.2.2 + w * delta_t)) + noise.2.1,
     pose.2.2 + w * delta_t + noise.2.2)

/-! ## `dataAssociation` -/

/-- The value of `numeric_limits<float>::max()`. -/
def FLT_MAX : R := 340282346638528859811704183484516925440

/-- Modelled from the spec: the helper `dist` of `helper_functions.h`, which is not part of
the translation unit: the Euclidean distance between `(x1, y1)` and `(x2, y2)`. -/
def dist (mth : MathLib R) (x1 y1 x2 y2 : R) : R :=
  mth.sqrt ((x2 - x1) * (x2 - x1) + (y2 - y1) * (y2 - y1))

/-- The inner loop of `dataAssociation` (lines 79-85) for one observation: the running
minimum `minD` and the observation whose `id` is overwritten. -/
def associateLoop (mth : MathLib R) :
    List (LandmarkObs R) → R → LandmarkObs R → R × LandmarkObs R
  | [], minD, obs => (minD, obs)
  | pred :: rest, minD, obs =>
    let distance := dist mth obs.x obs.y pred.x pred.y
    if minD > distance then associateLoop mth rest distance { obs with id := pred.id }
    else associateLoop mth rest minD obs

/-- `ParticleFilter::dataAssociation`: the observations after the call. -/
def dataAssociation (mth : MathLib R) (predicted observations : List (LandmarkObs R)) :
    List (LandmarkObs R) :=
  observations.map (fun obs => (associateLoop mth predicted FLT_MAX obs).2)

/-! ## `updateWeights` -/

/-- The macro `EPS`. -/
def EPS : R := 0.00001

/-- The loop over the map (lines 105-114) that collects the landmarks in range of `p`. -/
def predictionsLoop (p : Particle R) (sensor_range_2 : R) :
    List (single_landmark_s R) → List (LandmarkObs R)
  | [] => []
  | lm :: rest =>
    let dX := p.x - lm.x_f
    let dY := p.y - lm.y_f
    if dX * dX + dY * dY ≤ sensor_range_2 then
      { id := lm.id_i, x := lm.x_f, y := lm.y_f } :: predictionsLoop p sensor_range_2 rest
    else predictionsLoop p sensor_range_2 rest

/-- The loop of lines 117-121: an observation in the map frame of the pose `(x, y, theta)`. -/
def mapObservation (mth : MathLib R) (x y theta : R) (obs : LandmarkObs R) : LandmarkObs R :=
  { id := obs.id,
    x := mth.cos theta * obs.x - mth.sin theta * obs.y + x,
    y := mth.sin theta * obs.x + mth.cos theta * obs.y + y }

/-- The `while` loop of lines 135-142: the coordinates of the first prediction whose id is
`landmarkId`; `lmk` holds the values of `landmarkX`, `landmarkY` before the loop, which stay
when no prediction matches. -/
def lookupLoop (landmarkId : Int) : List (LandmarkObs R) → R × R → R × R
  | [], lmk => lmk
  | pr :: rest, lmk =>
    if pr.id = landmarkId then (pr.x, pr.y) else lookupLoop landmarkId rest lmk

/-- The likelihood of line 147. -/
def likelihood (mth : MathLib R) (stdLandmarkRange stdLandmarkBearing dX dY : R) : R :=
  (1 / (2 * mth.pi * stdLandmarkRange * stdLandmarkBearing)) *
    mth.exp (-(dX * dX / (2 * stdLandmarkRange * stdLandmarkRange) +
      (dY * dY / (2 * stdLandmarkBearing * stdLandmarkBearing))))

/-- The loop of lines 126-154 over the mapped observations: the running `p.weight` and the
contents of `landmarkX`, `landmarkY`. -/
def weightLoop (mth : MathLib R) (stdLandmarkRange stdLandmarkBearing : R)
    (predictions : List (LandmarkObs R)) : List (LandmarkObs R) → R → R × R → R × (R × R)
  | [], w, lmk => (w, lmk)
  | obs_m :: rest, w, lmk =>
    let lm := lookupLoop obs_m.id predictions lmk
    let dX := obs_m.x - lm.1
    let dY := obs_m.y - lm.2
    let weight := likelihood mth stdLandmarkRange stdLandmarkBearing dX dY
    if weight = 0 then
      weightLoop mth stdLandmarkRange stdLandmarkBearing predictions rest (w * EPS) lm
    else
      weightLoop mth stdLandmarkRange stdLandmarkBearing predictions rest (w * weight) lm

/-- The body of the loop over the particles of `updateWeights` (lines 98-154). -/
def updateParticle (mth : MathLib R) (sensor_range : R) (std_landmark : Nat → R)
    (observations : List (LandmarkObs R)) (map_landmarks : Map R)
    (p : Particle R) (lmk : R × R) : Particle R × (R × R) :=
  let stdLandmarkRange := std_landmark 0
  let stdLandmarkBearing := std_landmark 1
  let sensor_range_2 := sensor_range * sensor_range
  let predictions := predictionsLoop p sensor_range_2 map_landmarks.landmark_list
  let mappedObservations := observations.map (mapObservation mth p.x p.y p.theta)
  let mappedObservations := dataAssociation mth predictions mappedObservations
  let r := weightLoop mth stdLandmarkRange stdLandmarkBearing predictions mappedObservations 1 lmk
  ({ p with weight := r.1 }, r.2)

/-- The loop `for (auto& p : particles)` of `updateWeights`. -/
def updateLoop (mth : MathLib R) (sensor_range : R) (std_landmark : Nat → R)
    (observations : List (LandmarkObs R)) (map_landmarks : Map R) :
    List (Particle R) → R × R → List (Particle R)
  | [], _ => []
  | p :: ps, lmk =>
    let r := updateParticle mth sensor_range std_landmark observations map_landmarks p lmk
    r.1 :: updateLoop mth sensor_range std_landmark observations map_landmarks ps r.2

/-- `ParticleFilter::updateWeights`.  The locals `landmarkX`, `landmarkY` are declared
without a value; `uninit` is what they hold before the first assignment. -/
def updateWeights (mth : MathLib R) (sensor_range : R) (std_landmark : Nat → R)
    (observations : List (LandmarkObs R)) (map_landmarks : Map R) (uninit : R × R)
    (st : FilterState R G) : FilterState R G :=
  { st with particles :=
      updateLoop mth sensor_range std_landmark observations map_landmarks st.particles uninit }

/-! ## `resample` -/

/-- The value of `numeric_limits<double>::min()`, the least positive normal `double`. -/
def DBL_MIN : R := (1 / 2) ^ 1022

/-- Element access `v[i]` of a `std::vector` with an `int` index; `none` outside the
bounds. -/
def vecGet? {α : Type} (v : List α) (i : Int) : Option α :=
  if i < 0 then none else v[i.toNat]?

/-- The first loop of `resample` (lines 161-166): `n` iterations left, counter `i`. -/
def weightsLoop (particles : List (Particle R)) : Nat → Int → List R → R → Option (List R × R)
  | 0, _, weights, maxWeight => some (weights, maxWeight)
  | n + 1, i, weights, maxWeight =>
    match vecGet? particles i with
    | none => none
    | some p =>
      weightsLoop particles n (i + 1) (weights ++ [p.weight])
        (if p.weight > maxWeight then p.weight else maxWeight)

/-- The `while` loop of the resampling wheel (lines 178-181), run for at most `fuel` tests
of its condition; `none` when the fuel is used up or an index is out of bounds. -/
def wheelLoop (weights : List R) (num_particles : Int) : Nat → R → Int → Option (R × Int)
  | 0, _, _ => none
  | fuel + 1, beta, index =>
    match vecGet? weights index with
    | none => none
    | some w =>
      if beta > w then
        wheelLoop weights num_particles fuel (beta - w) (Int.tmod (index + 1) num_particles)
      else some (beta, index)

/-- The second loop of `resample` (lines 176-183): `n` iterations left, accumulator `beta`,
wheel position `index`, engine `g`, output `resampledParticles`. -/
def resampleLoop (rnd : RandomLib R G) (particles : List (Particle R)) (weights : List R)
    (num_particles : Int) (maxWeight : R) (fuel : Nat) :
    Nat → R → Int → G → List (Particle R) → Option (List (Particle R) × G)
  | 0, _, _, g, resampledParticles => some (resampledParticles, g)
  | n + 1, beta, index, g, resampledParticles =>
    let d := rnd.uniformReal 0 maxWeight g
    match wheelLoop weights num_particles fuel (beta + d.1 * 2) index with
    | none => none
    | some (beta1, index1) =>
      match vecGet? particles index1 with
      | none => none
      | some p =>
        resampleLoop rnd particles weights num_particles maxWeight fuel n beta1 index1 d.2
          (resampledParticles ++ [p])

/-- `ParticleFilter::resample`, every run of the inner `while` loop bounded by `fuel`. -/
def resample (rnd : RandomLib R G) (fuel : Nat) (st : FilterState R G) :
    Option (FilterState R G) :=
  match weightsLoop st.particles st.num_particles.toNat 0 [] DBL_MIN with
  | none => none
  | some (weights, maxWeight) =>
    let s := rnd.uniformInt 0 (st.num_particles - 1) st.gen
    match resampleLoop rnd st.particles weights st.num_particles maxWeight fuel
        st.num_particles.toNat 0 s.1 s.2 [] with
    | none => none
    | some (ps, g) => some { st with particles := ps, gen := g }

/-! ## The annotation accessors -/

/-- The decimal digit `d < 10` as a character. -/
def digitChar (d : Nat) : Char := Char.ofNat (48 + d)

/-- The decimal digits of `n`, most significant first, in front of `acc`. -/
def natDigits : Nat → Nat → List Char → List Char
  | 0, _, acc => acc
  | fuel + 1, n, acc =>
    if n < 10 then digitChar n :: acc
    else natDigits fuel (n / 10) (digitChar (n % 10) :: acc)

/-- The text `operator<<` writes for an `int`. -/
def intToChars (n : Int) : List Char :=
  if n < 0 then '-' :: natDigits (n.natAbs + 1) n.natAbs []
  else natDigits (n.natAbs + 1) n.natAbs []

/-- The contents of the stream after `copy(v.begin(), v.end(), ostream_iterator<int>(ss, " "))`:
every element followed by the delimiter. -/
def ostreamCopy : List Int → List Char
  | [] => []
  | n :: rest => intToChars n ++ ' ' :: ostreamCopy rest

/-- The call `s.substr(pos, n)` for `pos ≤ s.length()`. -/
def substr (s : List Char) (pos n : Nat) : List Char := (s.drop pos).take n

/-- `ParticleFilter::getAssociations`; a `std::string` is the list of its characters and
`s.length() - 1` is computed in the 64-bit unsigned type `size_t`. -/
def getAssociations (best : Particle R) : List Char :=
  let v := best.associations
  let s := ostreamCopy v
  substr s 0 ((s.length + 2 ^ 64 - 1) % 2 ^ 64)

/-! ## Reachable states -/

/-- The states of a filter that was freshly constructed (not initialized, no particles),
then initialized once and then driven by any finite sequence of `prediction`,
`updateWeights` and (returning) `resample` calls. -/
inductive Reachable (mth : MathLib R) (rnd : RandomLib R G) : FilterState R G → Prop
  | init (st0 : FilterState R G) (x y theta : R) (std : Nat → R) :
      st0.is_initialized = false → st0.particles = [] →
      Reachable mth rnd (init rnd x y theta std st0)
  | prediction (st : FilterState R G) (delta_t : R) (std_pos : Nat → R)
      (velocity yaw_rate : R) :
      Reachable mth rnd st →
      Reachable mth rnd (prediction mth rnd delta_t std_pos velocity yaw_rate st)
  | updateWeights (st : FilterState R G) (sensor_range : R) (std_landmark : Nat → R)
      (observations : List (LandmarkObs R)) (map_landmarks : Map R) (uninit : R × R) :
      Reachable mth rnd st →
      Reachable mth rnd
        (updateWeights mth sensor_range std_landmark observations map_landmarks uninit st)
  | resample (st st1 : FilterState R G) (fuel : Nat) :
      Reachable mth rnd st → resample rnd fuel st = some st1 → Reachable mth rnd st1

/-! ## Concrete libraries and states used to instantiate the theorems -/

/-- The math library over the real numbers. -/
noncomputable def realMath : MathLib ℝ where
  cos := Real.cos
  sin := Real.sin
  exp := Real.exp
  sqrt := Real.sqrt
  pi := Real.pi

/-- A degenerate `<random>`: every distribution returns a fixed point of its range (the
mean, the midpoint, the lower bound) and the engine counts the draws. -/
def meanRandom : RandomLib R Nat where
  defaultEngine := 0
  normal := fun mean _ g => (mean, g + 1)
  uniformReal := fun a b g => ((a + b) / 2, g + 1)
  uniformInt := fun a _ g => (a, g + 1)

/-- A freshly constructed filter. -/
def freshFilter : FilterState R Nat :=
  { num_particles := 0, is_initialized := false, particles := [], gen := 0 }

/-- A particle at the origin with the given id and weight and no annotations. -/
def particleAt (id : Int) (weight : R) : Particle R :=
  { id := id, x := 0, y := 0, theta := 0, weight := weight,
    associations := [], sense_x := [], sense_y := [] }

/-- An initialized filter with two particles of weights 1 and 3. -/
def twoParticles : FilterState R Nat :=
  { num_particles := 2, is_initialized := true,
    particles := [particleAt 0 1, particleAt 1 3], gen := 0 }

/-- The value of a decimal digit character. -/
def charDigit (c : Char) : Option Nat :=
  if 48 ≤ c.toNat ∧ c.toNat ≤ 57 then some (c.toNat - 48) else none

/-- Reading decimal digits from the left, `acc` being the value read so far. -/
def parseNatAux : Nat → List Char → Option Nat
  | acc, [] => some acc
  | acc, c :: cs =>
    match charDigit c with
    | none => none
    | some d => parseNatAux (acc * 10 + d) cs

/-- Parsing a non-empty string of decimal digits. -/
def parseNat (s : List Char) : Option Nat :=
  if s = [] then none else parseNatAux 0 s

/-- Parsing an integer: an optional minus sign followed by decimal digits. -/
def parseInt : List Char → Option Int
  | '-' :: cs => Option.map (fun n : Nat => -(n : Int)) (parseNat cs)
  | cs => Option.map (fun n : Nat => (n : Int)) (parseNat cs)

/-- An initialized filter with a single particle at the origin, heading 0. -/
def oneParticle : FilterState R Nat :=
  { num_particles := 1, is_initialized := true, particles := [particleAt 0 1], gen := 0 }

/-- A map with two landmarks of distinct ids on the x axis, at `0` and at `1e38`. -/
def farMap : Map R :=
  { landmark_list := [{ id_i := 1, x_f := 0, y_f := 0 }, { id_i := 2, x_f := 10 ^ 38, y_f := 0 }] }

/-- An observation on the x axis at `4.5e38`, carrying the id 1. -/
def farObservation : LandmarkObs R := { id := 1, x := 45 * 10 ^ 37, y := 0 }

/-! ## Reference definitions for the weight of a particle -/

/-- The first element of a list at which `d` is least (`none` for the empty list). -/
def firstNearest {α : Type} (d : α → R) : List α → Option α
  | [] => none
  | a :: rest =>
    match firstNearest d rest with
    | none => some a
    | some b => if d b < d a then some b else some a

/-- The factor of one observation in the reference weight of particle `p`: the Gaussian
likelihood of the offsets between the observation in map frame and the nearest landmark
(the first one on a tie) among those within `sensor_range` of `p`. -/
def referenceFactor (mth : MathLib R) (p : Particle R) (sensor_range s_r s_b : R) (mp : Map R)
    (obs : LandmarkObs R) : R :=
  let mx := mth.cos p.theta * obs.x - mth.sin p.theta * obs.y + p.x
  let my := mth.sin p.theta * obs.x + mth.cos p.theta * obs.y + p.y
  match firstNearest (fun lm : single_landmark_s R => dist mth mx my lm.x_f lm.y_f)
      (mp.landmark_list.filter
        (fun lm => decide (dist mth p.x p.y lm.x_f lm.y_f ≤ sensor_range))) with
  | none => 1
  | some lm =>
    1 / (2 * mth.pi * s_r * s_b) *
      mth.exp (-((mx - lm.x_f) ^ 2 / (2 * s_r ^ 2) + (my - lm.y_f) ^ 2 / (2 * s_b ^ 2)))

/-- The reference weight of particle `p`: the product of the factors of the observations. -/
def referenceWeight (mth : MathLib R) (p : Particle R) (sensor_range s_r s_b : R) (mp : Map R)
    (observations : List (LandmarkObs R)) : R :=
  (observations.map (referenceFactor mth p sensor_range s_r s_b mp)).prod

/-- The factor by which lines 148-153 multiply the weight for a likelihood `weight`. -/
def flooredFactor (weight : R) : R := if weight = 0 then EPS else weight

/-- The entry pushed on `predictions` for a landmark (line 112). -/
def toPrediction (lm : single_landmark_s R) : LandmarkObs R :=
  { id := lm.id_i, x := lm.x_f, y := lm.y_f }

/-! ## `SetAssociations` -/

/-- `ParticleFilter::SetAssociations`: a member function, so it is given the filter state
and returns it next to the particle it returns. -/
def SetAssociations (st : FilterState R G) (particle : Particle R) (associations : List Int)
    (sense_x sense_y : List R) : Particle R × FilterState R G :=
  let particle : Particle R := { particle with associations := [] }
  let particle : Particle R := { particle with sense_x := [] }
  let particle : Particle R := { particle with sense_y := [] }
  let particle : Particle R := { particle with associations := associations }
  let particle : Particle R := { particle with sense_x := sense_x }
  let particle : Particle R := { particle with sense_y := sense_y }
  (particle, st)

/-- A map with two landmarks of distinct ids, at `(3, 4)` and at `(10, 0)`. -/
def nearMap : Map R :=
  { landmark_list := [{ id_i := 1, x_f := 3, y_f := 4 }, { id_i := 2, x_f := 10, y_f := 0 }] }

/-- An observation at `(3, 4)` in vehicle frame, with the id 0. -/
def nearObservation : LandmarkObs R := { id := 0, x := 3, y := 4 }

/-- The landmarks of a list whose Euclidean distance to `(x, y)` is at most `sensor_range`,
in list order, each as a `LandmarkObs` with its id and position. -/
def landmarksWithin (mth : MathLib R) (x y sensor_range : R)
    (lms : List (single_landmark_s R)) : List (LandmarkObs R) :=
  (lms.filter (fun lm => decide (dist mth x y lm.x_f lm.y_f ≤ sensor_range))).map toPrediction

/-- The noise-free closed-form CTRV update of `prediction` (lines 62-64) for the yaw rate
`w`, as a function of the pose `(x, y, h)`. -/
def turnUpdate (mth : MathLib R) (delta_t v w : R) (pose : R × R × R) : R × R × R :=
  (pose.1 + v / w * (mth.sin (pose.2.2 + w * delta_t) - mth.sin pose.2.2),
   pose.2.1 + v / w * (mth.cos pose.2.2 - mth.cos (pose.2.2 + w * delta_t)),
   pose.2.2 + w * delta_t)

/-- The noise-free straight-line update of `prediction` (lines 57-58). -/
def straightUpdate (mth : MathLib R) (delta_t v : R) (pose : R × R × R) : R × R × R :=
  (pose.1 + v * delta_t * mth.cos pose.2.2,
   pose.2.1 + v * delta_t * mth.sin pose.2.2,
   pose.2.2)

/-- The states of a filter that was freshly constructed, initialized once and then driven
by `prediction` and `updateWeights` calls only. -/
inductive ReachableBeforeResample (mth : MathLib R) (rnd : RandomLib R G) :
    FilterState R G → Prop
  | init (st0 : FilterState R G) (x y theta : R) (std : Nat → R) :
      st0.is_initialized = false → st0.particles = [] →
      ReachableBeforeResample mth rnd (init rnd x y theta std st0)
  | prediction (st : FilterState R G) (delta_t : R) (std_pos : Nat → R)
      (velocity yaw_rate : R) :
      ReachableBeforeResample mth rnd st →
      ReachableBeforeResample mth rnd (prediction mth rnd delta_t std_pos velocity yaw_rate st)
  | updateWeights (st : FilterState R G) (sensor_range : R) (std_landmark : Nat → R)
      (observations : List (LandmarkObs R)) (map_landmarks : Map R) (uninit : R × R) :
      ReachableBeforeResample mth rnd st →
      ReachableBeforeResample mth rnd
        (updateWeights mth sensor_range std_landmark observations map_landmarks uninit st)

/-- A degenerate `<random>` that always returns the lower end of the range (the mean for
the normal distribution); the engine counts the draws. -/
def lowRandom : RandomLib R Nat where
  defaultEngine := 0
  normal := fun mean _ g => (mean, g + 1)
  uniformReal := fun a _ g => (a, g + 1)
  uniformInt := fun a _ g => (a, g + 1)

/-! ## The accumulator of the resampling wheel -/

/-- The values of `beta` and `index` after the inner loop in each of the `n` remaining
iterations of the second loop of `resample` (the same run as `resampleLoop`, recording
the accumulator instead of the particles). -/
def wheelTrace (rnd : RandomLib R G) (weights : List R) (num_particles : Int)
    (maxWeight : R) (fuel : Nat) : Nat → R → Int → G → Option (List (R × Int))
  | 0, _, _, _ => some []
  | n + 1, beta, index, g =>
    let d := rnd.uniformReal 0 maxWeight g
    match wheelLoop weights num_particles fuel (beta + d.1 * 2) index with
    | none => none
    | some (beta1, index1) =>
      match wheelTrace rnd weights num_particles maxWeight fuel n beta1 index1 d.2 with
      | none => none
      | some rest => some ((beta1, index1) :: rest)

/-- The pairs `(beta, index)` after each selection of a `resample` call on `st`. -/
def resampleTrace (rnd : RandomLib R G) (fuel : Nat) (st : FilterState R G) :
    Option (List (R × Int)) :=
  match weightsLoop st.particles st.num_particles.toNat 0 [] DBL_MIN with
  | none => none
  | some (weights, maxWeight) =>
    let s := rnd.uniformInt 0 (st.num_particles - 1) st.gen
    wheelTrace rnd weights st.num_particles maxWeight fuel st.num_particles.toNat 0 s.1 s.2

end Defs

section Proofs

variable {R G : Type} [LinearOrderedField R]

/-! ## `init` -/

theorem initLoop_length (rnd : RandomLib R G) (x y theta : R) (std : Nat → R) (n : Nat) :
    ∀ (i : Int) (g : G) (ps : List (Particle R)),
      (initLoop rnd x y theta std n i g ps).length = ps.length + n := by
  induction n with
  | zero => intro i g ps; simp [initLoop]
  | succ n ih =>
    intro i g ps
    simp only [initLoop]
    rw [ih]
    simp
    omega

theorem initLoop_old (rnd : RandomLib R G) (x y theta : R) (std : Nat → R) (n : Nat) :
    ∀ (i : Int) (g : G) (ps : List (Particle R)) (k : Nat), k < ps.length →
      (initLoop rnd x y theta std n i g ps)[k]? = ps[k]? := by
  induction n with
  | zero => intro i g ps k _; simp [initLoop]
  | succ n ih =>
    intro i g ps k hk
    simp only [initLoop]
    rw [ih _ _ _ k (by simp; omega)]
    exact List.getElem?_append_left hk

theorem initLoop_new (rnd : RandomLib R G) (x y theta : R) (std : Nat → R) (n : Nat) :
    ∀ (i : Int) (g : G) (ps : List (Particle R)) (k : Nat), k < n →
      ∃ p, (initLoop rnd x y theta std n i g ps)[ps.length + k]? = some p ∧
        p.id = i + k ∧ p.weight = 1 := by
  induction n with
  | zero => intro i g ps k hk; omega
  | succ n ih =>
    intro i g ps k hk
    simp only [initLoop]
    cases k with
    | zero =>
      rw [initLoop_old _ _ _ _ _ _ _ _ _ _ (by simp)]
      simp
    | succ k =>
      obtain ⟨p, hp, hid, hw⟩ := ih (i + 1) (rnd.normal theta (std 2)
        (rnd.normal y (std 1) (rnd.normal x (std 0) g).2).2).2
        (ps ++ [{ id := i, x := (rnd.normal x (std 0) g).1,
                  y := (rnd.normal y (std 1) (rnd.normal x (std 0) g).2).1,
                  theta := (rnd.normal theta (std 2)
                    (rnd.normal y (std 1) (rnd.normal x (std 0) g).2).2).1,
                  weight := 1, associations := [], sense_x := [], sense_y := [] }])
        k (by omega)
      refine ⟨p, ?_, ?_, hw⟩
      · rw [← hp]
        congr 1
        simp
        omega
      · rw [hid]
        push_cast
        ring

/-- C1: on a freshly constructed filter (not initialized, no particles) `init` sets the
particle count to 100, leaves exactly that many particles, the particle at position `i`
having id `i` and weight 1, and sets the initialized flag. -/
theorem init_fresh (rnd : RandomLib R G) (x y theta : R) (std : Nat → R)
    (st : FilterState R G) (hinit : st.is_initialized = false) (hemp : st.particles = []) :
    (init rnd x y theta std st).num_particles = 100 ∧
    ((init rnd x y theta std st).particles.length : Int)
      = (init rnd x y theta std st).num_particles ∧
    (∀ i : Nat, i < 100 → ∃ p, (init rnd x y theta std st).particles[i]? = some p ∧
        p.id = (i : Int) ∧ p.weight = 1) ∧
    (init rnd x y theta std st).is_initialized = true := by
  simp only [init, hinit, hemp, Bool.false_eq_true, if_false]
  refine ⟨trivial, ?_, ?_, trivial⟩
  · rw [initLoop_length]
    simp
  · intro i hi
    have h := initLoop_new rnd x y theta std (100 : Int).toNat 0 rnd.defaultEngine [] i
      (by simpa using hi)
    simpa using h

/-- Witness of C1: the degenerate sampler on a fresh filter over the rationals. -/
theorem init_fresh_witness :
    (freshFilter : FilterState ℚ Nat).is_initialized = false ∧
    (freshFilter : FilterState ℚ Nat).particles = [] ∧
    (init meanRandom 4 5 (1 / 2) (fun _ => 1) (freshFilter : FilterState ℚ Nat)).num_particles
      = 100 ∧
    ((init meanRandom 4 5 (1 / 2) (fun _ => 1)
        (freshFilter : FilterState ℚ Nat)).particles.length : Int)
      = (init meanRandom 4 5 (1 / 2) (fun _ => 1)
        (freshFilter : FilterState ℚ Nat)).num_particles ∧
    (∀ i : Nat, i < 100 → ∃ p, (init meanRandom 4 5 (1 / 2) (fun _ => 1)
        (freshFilter : FilterState ℚ Nat)).particles[i]? = some p ∧
        p.id = (i : Int) ∧ p.weight = 1) ∧
    (init meanRandom 4 5 (1 / 2) (fun _ => 1)
        (freshFilter : FilterState ℚ Nat)).is_initialized = true :=
  ⟨rfl, rfl, init_fresh meanRandom 4 5 (1 / 2) (fun _ => 1) freshFilter rfl rfl⟩

/-- C2: `init` on an initialized filter returns the state unchanged (particles, particle
count, flag and shared engine), and a second `init` after a first one changes nothing. -/
theorem init_noop (rnd : RandomLib R G) :
    (∀ (x y theta : R) (std : Nat → R) (st : FilterState R G),
      st.is_initialized = true → init rnd x y theta std st = st) ∧
    (∀ (x y theta : R) (std : Nat → R) (x1 y1 theta1 : R) (std1 : Nat → R)
      (st : FilterState R G),
      init rnd x1 y1 theta1 std1 (init rnd x y theta std st) = init rnd x y theta std st) := by
  have h1 : ∀ (x y theta : R) (std : Nat → R) (st : FilterState R G),
      st.is_initialized = true → init rnd x y theta std st = st := by
    intro x y theta std st h
    simp [init, h]
  refine ⟨h1, ?_⟩
  intro x y theta std x1 y1 theta1 std1 st
  apply h1
  unfold init
  split
  · assumption
  · rfl

/-- Witness of C2 on an initialized state. -/
theorem init_noop_witness :
    init (meanRandom : RandomLib ℚ Nat) 1 2 3 (fun _ => 1)
        { num_particles := 0, is_initialized := true, particles := [], gen := 5 }
      = { num_particles := 0, is_initialized := true, particles := [], gen := 5 } :=
  (init_noop (meanRandom : RandomLib ℚ Nat)).1 1 2 3 (fun _ => 1)
    { num_particles := 0, is_initialized := true, particles := [], gen := 5 } rfl

/-! ## Size of the particle collection -/

theorem predictionLoop_length (mth : MathLib R) (rnd : RandomLib R G) (delta_t : R)
    (std_pos : Nat → R) (velocity yaw_rate : R) (ps : List (Particle R)) :
    ∀ g : G, (predictionLoop mth rnd delta_t std_pos velocity yaw_rate ps g).1.length
      = ps.length := by
  induction ps with
  | nil => intro g; rfl
  | cons p ps ih => intro g; simp [predictionLoop, ih]

theorem updateLoop_length (mth : MathLib R) (sensor_range : R) (std_landmark : Nat → R)
    (observations : List (LandmarkObs R)) (map_landmarks : Map R) (ps : List (Particle R)) :
    ∀ lmk : R × R,
      (updateLoop mth sensor_range std_landmark observations map_landmarks ps lmk).length
        = ps.length := by
  induction ps with
  | nil => intro lmk; rfl
  | cons p ps ih => intro lmk; simp [updateLoop, ih]

theorem resampleLoop_length (rnd : RandomLib R G) (particles : List (Particle R))
    (weights : List R) (num_particles : Int) (maxWeight : R) (fuel : Nat) (n : Nat) :
    ∀ (beta : R) (index : Int) (g : G) (acc out : List (Particle R)) (g1 : G),
      resampleLoop rnd particles weights num_particles maxWeight fuel n beta index g acc
        = some (out, g1) → out.length = acc.length + n := by
  induction n with
  | zero =>
    intro beta index g acc out g1 h
    simp only [resampleLoop, Option.some.injEq, Prod.mk.injEq] at h
    simp [← h.1]
  | succ n ih =>
    intro beta index g acc out g1 h
    simp only [resampleLoop] at h
    split at h
    · exact absurd h (by simp)
    · split at h
      · exact absurd h (by simp)
      · rw [ih _ _ _ _ _ _ h]
        simp
        omega

theorem resampleLoop_mem (rnd : RandomLib R G) (particles : List (Particle R))
    (weights : List R) (num_particles : Int) (maxWeight : R) (fuel : Nat) (n : Nat) :
    ∀ (beta : R) (index : Int) (g : G) (acc out : List (Particle R)) (g1 : G),
      resampleLoop rnd particles weights num_particles maxWeight fuel n beta index g acc
        = some (out, g1) →
      ∀ p ∈ out, p ∈ acc ∨ ∃ i : Nat, particles[i]? = some p := by
  induction n with
  | zero =>
    intro beta index g acc out g1 h p hp
    simp only [resampleLoop, Option.some.injEq, Prod.mk.injEq] at h
    left
    rw [h.1]
    exact hp
  | succ n ih =>
    intro beta index g acc out g1 h p hp
    simp only [resampleLoop] at h
    split at h
    · exact absurd h (by simp)
    · rename_i beta1 index1 hw
      split at h
      · exact absurd h (by simp)
      · rename_i q hq
        rcases ih _ _ _ _ _ _ h p hp with hmem | hex
        · rcases List.mem_append.mp hmem with h1 | h1
          · exact Or.inl h1
          · right
            have hpq : p = q := by simpa using h1
            subst hpq
            unfold vecGet? at hq
            split at hq
            · exact absurd hq (by simp)
            · exact ⟨index1.toNat, hq⟩
        · exact Or.inr hex

theorem resample_some (rnd : RandomLib R G) (fuel : Nat) (st st1 : FilterState R G)
    (h : resample rnd fuel st = some st1) :
    ∃ (weights : List R) (maxWeight : R),
      weightsLoop st.particles st.num_particles.toNat 0 [] DBL_MIN = some (weights, maxWeight) ∧
      resampleLoop rnd st.particles weights st.num_particles maxWeight fuel
        st.num_particles.toNat 0 (rnd.uniformInt 0 (st.num_particles - 1) st.gen).1
        (rnd.uniformInt 0 (st.num_particles - 1) st.gen).2 [] = some (st1.particles, st1.gen) ∧
      st1.num_particles = st.num_particles ∧ st1.is_initialized = st.is_initialized := by
  unfold resample at h
  split at h
  · exact absurd h (by simp)
  · rename_i weights maxWeight hw
    simp only at h
    split at h
    · exact absurd h (by simp)
    · rename_i ps g hl
      simp only [Option.some.injEq] at h
      subst h
      exact ⟨weights, maxWeight, hw, hl, rfl, rfl⟩

theorem prediction_size (mth : MathLib R) (rnd : RandomLib R G) (delta_t : R)
    (std_pos : Nat → R) (velocity yaw_rate : R) (st : FilterState R G) :
    (prediction mth rnd delta_t std_pos velocity yaw_rate st).particles.length
      = st.particles.length ∧
    (prediction mth rnd delta_t std_pos velocity yaw_rate st).num_particles
      = st.num_particles := by
  simp [prediction, predictionLoop_length]

theorem updateWeights_size (mth : MathLib R) (sensor_range : R) (std_landmark : Nat → R)
    (observations : List (LandmarkObs R)) (map_landmarks : Map R) (uninit : R × R)
    (st : FilterState R G) :
    (updateWeights mth sensor_range std_landmark observations map_landmarks uninit
      st).particles.length = st.particles.length ∧
    (updateWeights mth sensor_range std_landmark observations map_landmarks uninit
      st).num_particles = st.num_particles := by
  simp [updateWeights, updateLoop_length]

theorem resample_size (rnd : RandomLib R G) (fuel : Nat) (st st1 : FilterState R G)
    (h : resample rnd fuel st = some st1) :
    st1.particles.length = st.num_particles.toNat ∧ st1.num_particles = st.num_particles := by
  obtain ⟨weights, maxWeight, _, hl, hn, _⟩ := resample_some rnd fuel st st1 h
  refine ⟨?_, hn⟩
  rw [resampleLoop_length _ _ _ _ _ _ _ _ _ _ _ _ _ hl]
  simp

/-- C3: in every state reachable from a freshly constructed filter by one `init` followed
by `prediction`, `updateWeights` and `resample` calls the number of particles equals
`num_particles`; each of the three operations maps a state with that property to a state
with that property and leaves `num_particles` unchanged. -/
theorem size_invariant (mth : MathLib R) (rnd : RandomLib R G) :
    (∀ st : FilterState R G, Reachable mth rnd st →
      (st.particles.length : Int) = st.num_particles) ∧
    (∀ (st : FilterState R G) (delta_t : R) (std_pos : Nat → R) (velocity yaw_rate : R),
      (st.particles.length : Int) = st.num_particles →
      ((prediction mth rnd delta_t std_pos velocity yaw_rate st).particles.length : Int)
        = (prediction mth rnd delta_t std_pos velocity yaw_rate st).num_particles ∧
      (prediction mth rnd delta_t std_pos velocity yaw_rate st).num_particles
        = st.num_particles) ∧
    (∀ (st : FilterState R G) (sensor_range : R) (std_landmark : Nat → R)
      (observations : List (LandmarkObs R)) (map_landmarks : Map R) (uninit : R × R),
      (st.particles.length : Int) = st.num_particles →
      ((updateWeights mth sensor_range std_landmark observations map_landmarks uninit
          st).particles.length : Int)
        = (updateWeights mth sensor_range std_landmark observations map_landmarks uninit
          st).num_particles ∧
      (updateWeights mth sensor_range std_landmark observations map_landmarks uninit
          st).num_particles = st.num_particles) ∧
    (∀ (st st1 : FilterState R G) (fuel : Nat),
      (st.particles.length : Int) = st.num_particles →
      resample rnd fuel st = some st1 →
      (st1.particles.length : Int) = st1.num_particles ∧
      st1.num_particles = st.num_particles) := by
  have hp : ∀ (st : FilterState R G) (delta_t : R) (std_pos : Nat → R)
      (velocity yaw_rate : R), (st.particles.length : Int) = st.num_particles →
      ((prediction mth rnd delta_t std_pos velocity yaw_rate st).particles.length : Int)
        = (prediction mth rnd delta_t std_pos velocity yaw_rate st).num_particles ∧
      (prediction mth rnd delta_t std_pos velocity yaw_rate st).num_particles
        = st.num_particles := by
    intro st delta_t std_pos velocity yaw_rate h
    obtain ⟨h1, h2⟩ := prediction_size mth rnd delta_t std_pos velocity yaw_rate st
    exact ⟨by rw [h1, h2, h], h2⟩
  have hu : ∀ (st : FilterState R G) (sensor_range : R) (std_landmark : Nat → R)
      (observations : List (LandmarkObs R)) (map_landmarks : Map R) (uninit : R × R),
      (st.particles.length : Int) = st.num_particles →
      ((updateWeights mth sensor_range std_landmark observations map_landmarks uninit
          st).particles.length : Int)
        = (updateWeights mth sensor_range std_landmark observations map_landmarks uninit
          st).num_particles ∧
      (updateWeights mth sensor_range std_landmark observations map_landmarks uninit
          st).num_particles = st.num_particles := by
    intro st sensor_range std_landmark observations map_landmarks uninit h
    obtain ⟨h1, h2⟩ :=
      updateWeights_size mth sensor_range std_landmark observations map_landmarks uninit st
    exact ⟨by rw [h1, h2, h], h2⟩
  have hr : ∀ (st st1 : FilterState R G) (fuel : Nat),
      (st.particles.length : Int) = st.num_particles →
      resample rnd fuel st = some st1 →
      (st1.particles.length : Int) = st1.num_particles ∧
      st1.num_particles = st.num_particles := by
    intro st st1 fuel h hres
    obtain ⟨h1, h2⟩ := resample_size rnd fuel st st1 hres
    refine ⟨?_, h2⟩
    rw [h1, h2]
    omega
  refine ⟨?_, hp, hu, hr⟩
  intro st hst
  induction hst with
  | init st0 x y theta std hinit hemp =>
    simp only [init, hinit, hemp, Bool.false_eq_true, if_false]
    rw [initLoop_length]
    simp
  | prediction st delta_t std_pos velocity yaw_rate _ ih =>
    exact (hp st delta_t std_pos velocity yaw_rate ih).1
  | updateWeights st sensor_range std_landmark observations map_landmarks uninit _ ih =>
    exact (hu st sensor_range std_landmark observations map_landmarks uninit ih).1
  | resample st st1 fuel _ hres ih => exact (hr st st1 fuel ih hres).1

/-- Witness of C3: the state right after `init` is reachable. -/
theorem size_invariant_witness :
    Reachable realMath meanRandom
      (init meanRandom 0 0 0 (fun _ => 1) (freshFilter : FilterState ℝ Nat)) ∧
    ((init meanRandom 0 0 0 (fun _ => 1) (freshFilter : FilterState ℝ Nat)).particles.length
        : Int)
      = (init meanRandom 0 0 0 (fun _ => 1) (freshFilter : FilterState ℝ Nat)).num_particles :=
  ⟨Reachable.init freshFilter 0 0 0 (fun _ => 1) rfl rfl,
   (size_invariant realMath meanRandom).1 _
     (Reachable.init freshFilter 0 0 0 (fun _ => 1) rfl rfl)⟩

/-! ## `prediction` -/

theorem predictionStep_eq (mth : MathLib R) (rnd : RandomLib R G) (delta_t : R)
    (std_pos : Nat → R) (velocity yaw_rate : R) (p : Particle R) (g : G) :
    predictionStep mth rnd delta_t std_pos velocity yaw_rate p g =
      ({ p with
          x := (ctrvReference mth delta_t velocity yaw_rate (p.x, p.y, p.theta)
            ((rnd.normal 0 (std_pos 0) g).1,
             (rnd.normal 0 (std_pos 1) (rnd.normal 0 (std_pos 0) g).2).1,
             (rnd.normal 0 (std_pos 2)
               (rnd.normal 0 (std_pos 1) (rnd.normal 0 (std_pos 0) g).2).2).1)).1,
          y := (ctrvReference mth delta_t velocity yaw_rate (p.x, p.y, p.theta)
            ((rnd.normal 0 (std_pos 0) g).1,
             (rnd.normal 0 (std_pos 1) (rnd.normal 0 (std_pos 0) g).2).1,
             (rnd.normal 0 (std_pos 2)
               (rnd.normal 0 (std_pos 1) (rnd.normal 0 (std_pos 0) g).2).2).1)).2.1,
          theta := (ctrvReference mth delta_t velocity yaw_rate (p.x, p.y, p.theta)
            ((rnd.normal 0 (std_pos 0) g).1,
             (rnd.normal 0 (std_pos 1) (rnd.normal 0 (std_pos 0) g).2).1,
             (rnd.normal 0 (std_pos 2)
               (rnd.normal 0 (std_pos 1) (rnd.normal 0 (std_pos 0) g).2).2).1)).2.2 },
       (rnd.normal 0 (std_pos 2)
         (rnd.normal 0 (std_pos 1) (rnd.normal 0 (std_pos 0) g).2).2).2) := by
  unfold predictionStep ctrvReference
  by_cases h : |yaw_rate| < 0.00001
  · simp only [h, if_true]
  · simp only [h, if_false]

/-- C4: `prediction` replaces the pose of every particle by the piecewise CTRV reference
plus the noise triple drawn for that particle (straight-line formula when `|yaw_rate|` is
below 0.00001, closed-form turn otherwise, all components from the heading before the
update) and leaves id, weight and annotations as they were. -/
theorem prediction_ctrv (mth : MathLib R) (rnd : RandomLib R G) (delta_t : R)
    (std_pos : Nat → R) (velocity yaw_rate : R) (st : FilterState R G) :
    (prediction mth rnd delta_t std_pos velocity yaw_rate st).particles =
      List.zipWith
        (fun (p : Particle R) (noise : R × R × R) =>
          { p with
            x := (ctrvReference mth delta_t velocity yaw_rate (p.x, p.y, p.theta) noise).1,
            y := (ctrvReference mth delta_t velocity yaw_rate (p.x, p.y, p.theta) noise).2.1,
            theta :=
              (ctrvReference mth delta_t velocity yaw_rate (p.x, p.y, p.theta) noise).2.2 })
        st.particles (predictionNoise rnd std_pos st.particles.length st.gen) := by
  unfold prediction
  simp only
  generalize st.gen = g
  generalize st.particles = ps
  induction ps generalizing g with
  | nil => rfl
  | cons p ps ih =>
    simp only [predictionLoop, predictionNoise, List.length_cons, List.zipWith_cons_cons]
    rw [predictionStep_eq]
    simp only
    rw [ih]

/-! ## `dataAssociation` -/

theorem associateLoop_pos (mth : MathLib R) (preds : List (LandmarkObs R)) :
    ∀ (minD : R) (obs : LandmarkObs R),
      (associateLoop mth preds minD obs).2.x = obs.x ∧
      (associateLoop mth preds minD obs).2.y = obs.y := by
  induction preds with
  | nil => intro minD obs; exact ⟨rfl, rfl⟩
  | cons pred rest ih =>
    intro minD obs
    simp only [associateLoop]
    split
    · exact ih _ _
    · exact ih _ _

/-- The result of the inner loop of `dataAssociation`: either no candidate is closer than
the initial `minD` and nothing changes, or the id is that of the first candidate at the
least distance, which is below `minD`. -/
theorem associateLoop_spec (mth : MathLib R) (preds : List (LandmarkObs R)) :
    ∀ (minD : R) (obs : LandmarkObs R),
      (associateLoop mth preds minD obs = (minD, obs) ∧
        ∀ c ∈ preds, minD ≤ dist mth obs.x obs.y c.x c.y) ∨
      (∃ (k : Nat) (c : LandmarkObs R), preds[k]? = some c ∧
        associateLoop mth preds minD obs
          = (dist mth obs.x obs.y c.x c.y, { obs with id := c.id }) ∧
        dist mth obs.x obs.y c.x c.y < minD ∧
        (∀ c1 ∈ preds, dist mth obs.x obs.y c.x c.y ≤ dist mth obs.x obs.y c1.x c1.y) ∧
        (∀ (j : Nat) (c1 : LandmarkObs R), j < k → preds[j]? = some c1 →
          dist mth obs.x obs.y c.x c.y < dist mth obs.x obs.y c1.x c1.y)) := by
  induction preds with
  | nil =>
    intro minD obs
    left
    exact ⟨rfl, by simp⟩
  | cons pred rest ih =>
    intro minD obs
    simp only [associateLoop]
    by_cases hlt : minD > dist mth obs.x obs.y pred.x pred.y
    · simp only [hlt, if_true]
      right
      rcases ih (dist mth obs.x obs.y pred.x pred.y) { obs with id := pred.id } with
        ⟨heq, hall⟩ | ⟨k, c, hk, heq, hc, hmin, hfirst⟩
      · refine ⟨0, pred, by simp, heq, hlt, ?_, ?_⟩
        · intro c1 hc1
          rcases List.mem_cons.mp hc1 with h | h
          · rw [h]
          · exact hall c1 h
        · intro j c1 hj _
          omega
      · refine ⟨k + 1, c, by simpa using hk, heq, lt_trans hc hlt, ?_, ?_⟩
        · intro c1 hc1
          rcases List.mem_cons.mp hc1 with h | h
          · rw [h]; exact le_of_lt hc
          · exact hmin c1 h
        · intro j c1 hj hj1
          cases j with
          | zero =>
            have : pred = c1 := by simpa using hj1
            rw [← this]
            exact hc
          | succ j => exact hfirst j c1 (by omega) (by simpa using hj1)
    · simp only [hlt, if_false]
      have hle : minD ≤ dist mth obs.x obs.y pred.x pred.y := not_lt.mp hlt
      rcases ih minD obs with ⟨heq, hall⟩ | ⟨k, c, hk, heq, hc, hmin, hfirst⟩
      · left
        refine ⟨heq, ?_⟩
        intro c1 hc1
        rcases List.mem_cons.mp hc1 with h | h
        · rw [h]; exact hle
        · exact hall c1 h
      · right
        refine ⟨k + 1, c, by simpa using hk, heq, hc, ?_, ?_⟩
        · intro c1 hc1
          rcases List.mem_cons.mp hc1 with h | h
          · rw [h]; exact le_of_lt (lt_of_lt_of_le hc hle)
          · exact hmin c1 h
        · intro j c1 hj hj1
          cases j with
          | zero =>
            have : pred = c1 := by simpa using hj1
            rw [← this]
            exact lt_of_lt_of_le hc hle
          | succ j => exact hfirst j c1 (by omega) (by simpa using hj1)

/-- When some candidate is closer to the observation than `FLT_MAX`, `dataAssociation` gives
the observation the id of the first candidate at the least distance and keeps its
position. -/
theorem dataAssociation_nearest (mth : MathLib R) (predicted observations : List (LandmarkObs R))
    (i : Nat) (obs : LandmarkObs R) (hobs : observations[i]? = some obs)
    (hnear : ∃ c ∈ predicted, dist mth obs.x obs.y c.x c.y < FLT_MAX) :
    ∃ (k : Nat) (c : LandmarkObs R), predicted[k]? = some c ∧
      (dataAssociation mth predicted observations)[i]? = some { obs with id := c.id } ∧
      (∀ c1 ∈ predicted, dist mth obs.x obs.y c.x c.y ≤ dist mth obs.x obs.y c1.x c1.y) ∧
      (∀ (j : Nat) (c1 : LandmarkObs R), j < k → predicted[j]? = some c1 →
        dist mth obs.x obs.y c.x c.y < dist mth obs.x obs.y c1.x c1.y) := by
  rcases associateLoop_spec mth predicted FLT_MAX obs with
    ⟨_, hall⟩ | ⟨k, c, hk, heq, _, hmin, hfirst⟩
  · obtain ⟨c, hc, hlt⟩ := hnear
    exact absurd hlt (not_lt.mpr (hall c hc))
  · refine ⟨k, c, hk, ?_, hmin, hfirst⟩
    simp [dataAssociation, hobs, heq]

theorem sqrt_far :
    Real.sqrt ((0 - 400000000000000000000000000000000000000) *
        (0 - 400000000000000000000000000000000000000) + (0 - 0) * (0 - 0))
      = 400000000000000000000000000000000000000 := by
  rw [show ((0 : ℝ) - 400000000000000000000000000000000000000) *
        (0 - 400000000000000000000000000000000000000) + (0 - 0) * (0 - 0)
      = 400000000000000000000000000000000000000 ^ 2 by norm_num]
  exact Real.sqrt_sq (by norm_num)

/-- C5 at a failing input: the only candidate (id 7, at the origin) is at distance `4e38`,
beyond `FLT_MAX`, from the observation at `(4e38, 0)`; the comparison `minD > distance`
never succeeds and the observation keeps its id 0 instead of receiving the id 7 of its
nearest candidate. -/
theorem dataAssociation_beyond_FLT_MAX :
    dataAssociation realMath [{ id := 7, x := 0, y := 0 }]
        [{ id := 0, x := 400000000000000000000000000000000000000, y := 0 }]
      = [{ id := 0, x := 400000000000000000000000000000000000000, y := 0 }] := by
  simp only [dataAssociation, List.map_cons, List.map_nil, associateLoop, dist, realMath,
    FLT_MAX]
  rw [sqrt_far]
  norm_num

/-! ## `resample` -/

/-- C7: when `resample` returns, every particle of the new collection is, field for field,
the particle at some index of the collection before the call. -/
theorem resample_from_old (rnd : RandomLib R G) (fuel : Nat) (st st1 : FilterState R G)
    (h : resample rnd fuel st = some st1) :
    ∀ p ∈ st1.particles, ∃ i : Nat, st.particles[i]? = some p := by
  obtain ⟨weights, maxWeight, _, hl, _, _⟩ := resample_some rnd fuel st st1 h
  intro p hp
  rcases resampleLoop_mem _ _ _ _ _ _ _ _ _ _ _ _ _ hl p hp with h1 | h1
  · exact absurd h1 (List.not_mem_nil p)
  · exact h1

theorem resample_twoParticles :
    resample meanRandom 3 (twoParticles : FilterState ℚ Nat)
      = some { num_particles := 2, is_initialized := true,
               particles := [particleAt 1 3, particleAt 1 3], gen := 3 } := by
  have t1 : Int.tmod 1 2 = 1 := by decide
  have t2 : Int.tmod 2 2 = 0 := by decide
  norm_num [resample, weightsLoop, vecGet?, twoParticles, particleAt, DBL_MIN, meanRandom,
    resampleLoop, wheelLoop, t1, t2]

/-- Witness of C7: two particles of weights 1 and 3, start index 0 and both draws 3/2. -/
theorem resample_from_old_witness :
    resample meanRandom 3 (twoParticles : FilterState ℚ Nat)
      = some { num_particles := 2, is_initialized := true,
               particles := [particleAt 1 3, particleAt 1 3], gen := 3 } ∧
    ∀ p ∈ [particleAt 1 (3 : ℚ), particleAt 1 3],
      ∃ i : Nat, (twoParticles : FilterState ℚ Nat).particles[i]? = some p :=
  ⟨resample_twoParticles,
   resample_from_old meanRandom 3 twoParticles _ resample_twoParticles⟩

theorem vecGet?_in_range {α : Type} (v : List α) (i : Int) (h0 : 0 ≤ i)
    (h1 : i < (v.length : Int)) : ∃ a, vecGet? v i = some a ∧ a ∈ v := by
  have hlt : i.toNat < v.length := by omega
  refine ⟨v[i.toNat], ?_, List.getElem_mem hlt⟩
  unfold vecGet?
  rw [if_neg (by omega)]
  exact List.getElem?_eq_getElem hlt

theorem vecGet?_some_range {α : Type} (v : List α) (i : Int) (a : α)
    (h : vecGet? v i = some a) : 0 ≤ i ∧ i < (v.length : Int) ∧ a ∈ v := by
  unfold vecGet? at h
  split at h
  · exact absurd h (by simp)
  · obtain ⟨hlt, ha⟩ := List.getElem?_eq_some.mp h
    refine ⟨by omega, by omega, ?_⟩
    rw [← ha]
    exact List.getElem_mem hlt

theorem wheel_next_index (N index : Int) (h0 : 0 ≤ index) (h1 : index < N) :
    Int.tmod (index + 1) N = (index + 1) % N ∧ 0 ≤ Int.tmod (index + 1) N ∧
      Int.tmod (index + 1) N < N := by
  have e : Int.tmod (index + 1) N = (index + 1) % N :=
    Int.tmod_eq_emod (by omega) (by omega)
  rw [e]
  exact ⟨rfl, Int.emod_nonneg _ (by omega), Int.emod_lt_of_pos _ (by omega)⟩

theorem wheelLoop_fuel_succ (weights : List R) (N : Int) (fuel : Nat) :
    ∀ (beta : R) (index : Int) (r : R × Int),
      wheelLoop weights N fuel beta index = some r →
      wheelLoop weights N (fuel + 1) beta index = some r := by
  induction fuel with
  | zero => intro beta index r h; simp [wheelLoop] at h
  | succ fuel ih =>
    intro beta index r h
    rw [wheelLoop] at h
    rw [wheelLoop]
    cases hv : vecGet? weights index with
    | none => simp [hv] at h
    | some w =>
      simp only [hv] at h ⊢
      by_cases hgt : beta > w
      · rw [if_pos hgt] at h ⊢
        exact ih _ _ _ h
      · rw [if_neg hgt] at h ⊢
        exact h

theorem wheelLoop_fuel_le (weights : List R) (N : Int) (fuel fuel1 : Nat) (hle : fuel ≤ fuel1)
    (beta : R) (index : Int) (r : R × Int) (h : wheelLoop weights N fuel beta index = some r) :
    wheelLoop weights N fuel1 beta index = some r := by
  induction hle with
  | refl => exact h
  | step _ ih => exact wheelLoop_fuel_succ _ _ _ _ _ _ ih

/-- The wheel loop stops: with non-negative weights, one of them positive, and a start
position inside the wheel, some amount of fuel makes `wheelLoop` return, at a position inside
the wheel. -/
theorem wheelLoop_terminates [Archimedean R] (weights : List R) (N : Int)
    (hN : (weights.length : Int) = N) (hnn : ∀ w ∈ weights, 0 ≤ w)
    (j : Int) (wj : R) (hj : vecGet? weights j = some wj) (hwj : 0 < wj) :
    ∀ (beta : R) (index : Int), 0 ≤ index → index < N →
      ∃ (fuel : Nat) (r : R × Int), wheelLoop weights N fuel beta index = some r ∧
        0 ≤ r.2 ∧ r.2 < N := by
  obtain ⟨hj0, hj1, _⟩ := vecGet?_some_range weights j wj hj
  have stop1 : ∀ (beta : R) (index : Int) (w : R), vecGet? weights index = some w →
      ¬ beta > w → wheelLoop weights N 1 beta index = some (beta, index) := by
    intro beta index w hw hgt
    rw [wheelLoop]
    simp only [hw]
    rw [if_neg hgt]
  have step1 : ∀ (beta : R) (index : Int) (w : R) (fuel : Nat) (r : R × Int),
      vecGet? weights index = some w → beta > w →
      wheelLoop weights N fuel (beta - w) (Int.tmod (index + 1) N) = some r →
      wheelLoop weights N (fuel + 1) beta index = some r := by
    intro beta index w fuel r hw hgt h
    rw [wheelLoop]
    simp only [hw]
    rw [if_pos hgt]
    exact h
  have main : ∀ (k : Nat) (beta : R) (index : Int), 0 ≤ index → index < N →
      beta ≤ (k : R) * wj →
      ∃ (fuel : Nat) (r : R × Int), wheelLoop weights N fuel beta index = some r ∧
        0 ≤ r.2 ∧ r.2 < N := by
    intro k
    induction k with
    | zero =>
      intro beta index h0 h1 hb
      obtain ⟨w, hw, hmem⟩ := vecGet?_in_range weights index h0 (by omega)
      have hw0 := hnn w hmem
      refine ⟨1, (beta, index), stop1 beta index w hw ?_, h0, h1⟩
      simp only [Nat.cast_zero, zero_mul] at hb
      exact not_lt.mpr (le_trans hb hw0)
    | succ k ih =>
      have walk : ∀ (d : Nat) (beta : R) (index : Int), 0 ≤ index → index < N →
          beta ≤ ((k + 1 : Nat) : R) * wj → (index + (d : Int)) % N = j →
          ∃ (fuel : Nat) (r : R × Int), wheelLoop weights N fuel beta index = some r ∧
            0 ≤ r.2 ∧ r.2 < N := by
        intro d
        induction d with
        | zero =>
          intro beta index h0 h1 hb hd
          have hidx : index = j := by
            rw [← hd]
            simp only [Nat.cast_zero, add_zero]
            exact (Int.emod_eq_of_lt h0 h1).symm
          subst hidx
          by_cases hgt : beta > wj
          · obtain ⟨e, n0, n1⟩ := wheel_next_index N index h0 h1
            have hb1 : beta - wj ≤ (k : R) * wj := by
              push_cast at hb
              linarith
            obtain ⟨fuel, r, hr, r0, r1⟩ := ih (beta - wj) _ n0 n1 hb1
            exact ⟨fuel + 1, r, step1 beta index wj fuel r hj hgt hr, r0, r1⟩
          · exact ⟨1, (beta, index), stop1 beta index wj hj hgt, h0, h1⟩
        | succ d ihd =>
          intro beta index h0 h1 hb hd
          obtain ⟨w, hw, hmem⟩ := vecGet?_in_range weights index h0 (by omega)
          have hw0 := hnn w hmem
          by_cases hgt : beta > w
          · obtain ⟨e, n0, n1⟩ := wheel_next_index N index h0 h1
            have hd1 : (Int.tmod (index + 1) N + (d : Int)) % N = j := by
              rw [e, Int.emod_add_emod, ← hd]
              congr 1
              push_cast
              ring
            obtain ⟨fuel, r, hr, r0, r1⟩ :=
              ihd (beta - w) _ n0 n1 (by linarith) hd1
            exact ⟨fuel + 1, r, step1 beta index w fuel r hw hgt hr, r0, r1⟩
          · exact ⟨1, (beta, index), stop1 beta index w hw hgt, h0, h1⟩
      intro beta index h0 h1 hb
      refine walk ((j - index) % N).toNat beta index h0 h1 hb ?_
      have hnn1 : 0 ≤ (j - index) % N := Int.emod_nonneg _ (by omega)
      rw [Int.toNat_of_nonneg hnn1, Int.add_emod_emod]
      rw [show index + (j - index) = j by ring]
      exact Int.emod_eq_of_lt hj0 (by omega)
  intro beta index h0 h1
  obtain ⟨k, hk⟩ := exists_nat_ge (beta / wj)
  exact main k beta index h0 h1 ((div_le_iff₀ hwj).mp hk)

theorem weightsLoop_eq (particles : List (Particle R)) (n : Nat) :
    ∀ (i : Nat) (acc : List R) (maxWeight : R), i + n ≤ particles.length →
      ∃ maxWeight1 : R, weightsLoop particles n (i : Int) acc maxWeight
        = some (acc ++ ((particles.drop i).take n).map (fun p => p.weight), maxWeight1) := by
  induction n with
  | zero => intro i acc maxWeight _; exact ⟨maxWeight, by simp [weightsLoop]⟩
  | succ n ih =>
    intro i acc maxWeight hle
    have hlt : i < particles.length := by omega
    have hget : vecGet? particles (i : Int) = some particles[i] := by
      unfold vecGet?
      rw [if_neg (by omega)]
      simp
    obtain ⟨m1, hm1⟩ := ih (i + 1) (acc ++ [particles[i].weight])
      (if particles[i].weight > maxWeight then particles[i].weight else maxWeight) (by omega)
    refine ⟨m1, ?_⟩
    rw [weightsLoop]
    simp only [hget]
    have e : (particles.drop i).take (n + 1) = particles[i] :: (particles.drop (i + 1)).take n := by
      rw [List.drop_eq_getElem_cons hlt, List.take_succ_cons]
    rw [show ((i : Int) + 1) = ((i + 1 : Nat) : Int) by push_cast; rfl, hm1, e]
    simp

theorem resampleLoop_fuel_le (rnd : RandomLib R G) (particles : List (Particle R))
    (weights : List R) (N : Int) (maxWeight : R) (fuel fuel1 : Nat) (hle : fuel ≤ fuel1)
    (n : Nat) :
    ∀ (beta : R) (index : Int) (g : G) (acc : List (Particle R)) (r : List (Particle R) × G),
      resampleLoop rnd particles weights N maxWeight fuel n beta index g acc = some r →
      resampleLoop rnd particles weights N maxWeight fuel1 n beta index g acc = some r := by
  induction n with
  | zero => intro beta index g acc r h; simpa [resampleLoop] using h
  | succ n ih =>
    intro beta index g acc r h
    rw [resampleLoop] at h
    rw [resampleLoop]
    cases hw : wheelLoop weights N fuel (beta + (rnd.uniformReal 0 maxWeight g).1 * 2) index with
    | none => simp [hw] at h
    | some bi =>
      rw [wheelLoop_fuel_le weights N fuel fuel1 hle _ _ _ hw]
      simp only [hw] at h
      cases hp : vecGet? particles bi.2 with
      | none => simp [hp] at h
      | some p =>
        simp only [hp] at h ⊢
        exact ih _ _ _ _ _ h

theorem resampleLoop_terminates [Archimedean R] (rnd : RandomLib R G)
    (particles : List (Particle R)) (weights : List R) (N : Int) (maxWeight : R)
    (hP : (particles.length : Int) = N) (hN : (weights.length : Int) = N)
    (hnn : ∀ w ∈ weights, 0 ≤ w)
    (j : Int) (wj : R) (hj : vecGet? weights j = some wj) (hwj : 0 < wj) (n : Nat) :
    ∀ (beta : R) (index : Int) (g : G) (acc : List (Particle R)), 0 ≤ index → index < N →
      ∃ (fuel : Nat) (r : List (Particle R) × G),
        resampleLoop rnd particles weights N maxWeight fuel n beta index g acc = some r := by
  induction n with
  | zero => intro beta index g acc _ _; exact ⟨0, (acc, g), rfl⟩
  | succ n ih =>
    intro beta index g acc h0 h1
    obtain ⟨f1, bi, hbi, b0, b1⟩ := wheelLoop_terminates weights N hN hnn j wj hj hwj
      (beta + (rnd.uniformReal 0 maxWeight g).1 * 2) index h0 h1
    obtain ⟨p, hp, _⟩ := vecGet?_in_range particles bi.2 b0 (by omega)
    obtain ⟨f2, r, hr⟩ := ih bi.1 bi.2 (rnd.uniformReal 0 maxWeight g).2 (acc ++ [p]) b0 b1
    refine ⟨max f1 f2, r, ?_⟩
    rw [resampleLoop]
    rw [wheelLoop_fuel_le weights N f1 (max f1 f2) (le_max_left _ _) _ _ _ hbi]
    simp only [hp]
    exact resampleLoop_fuel_le rnd particles weights N maxWeight f2 (max f1 f2)
      (le_max_right _ _) n _ _ _ _ _ hr

theorem digitChar_facts (d : Nat) (h : d < 10) :
    charDigit (digitChar d) = some d ∧ digitChar d ≠ ' ' ∧ digitChar d ≠ '-' := by
  interval_cases d <;> decide

theorem natDigits_append (fuel : Nat) :
    ∀ (n : Nat) (acc : List Char), natDigits fuel n acc = natDigits fuel n [] ++ acc := by
  induction fuel with
  | zero => intro n acc; rfl
  | succ fuel ih =>
    intro n acc
    simp only [natDigits]
    split
    · rfl
    · rw [ih (n / 10) (digitChar (n % 10) :: acc), ih (n / 10) [digitChar (n % 10)]]
      simp

theorem natDigits_step (fuel n : Nat) (h : ¬ n < 10) :
    natDigits (fuel + 1) n [] = natDigits fuel (n / 10) [] ++ [digitChar (n % 10)] := by
  rw [natDigits, if_neg h, natDigits_append]

theorem natDigits_digit (fuel : Nat) :
    ∀ (n : Nat), ∀ c ∈ natDigits fuel n [], ∃ d : Nat, d < 10 ∧ c = digitChar d := by
  induction fuel with
  | zero => intro n c hc; simp [natDigits] at hc
  | succ fuel ih =>
    intro n c hc
    by_cases h : n < 10
    · rw [natDigits, if_pos h] at hc
      exact ⟨n, h, by simpa using hc⟩
    · rw [natDigits_step fuel n h] at hc
      rcases List.mem_append.mp hc with h1 | h1
      · exact ih _ c h1
      · exact ⟨n % 10, Nat.mod_lt _ (by norm_num), by simpa using h1⟩

theorem natDigits_ne_nil (fuel n : Nat) : natDigits (fuel + 1) n [] ≠ [] := by
  by_cases h : n < 10
  · rw [natDigits, if_pos h]
    simp
  · rw [natDigits_step fuel n h]
    simp

theorem parseNatAux_append (ds es : List Char) :
    ∀ acc : Nat, parseNatAux acc (ds ++ es)
      = (parseNatAux acc ds).bind (fun b => parseNatAux b es) := by
  induction ds with
  | nil => intro acc; rfl
  | cons c cs ih =>
    intro acc
    simp only [List.cons_append, parseNatAux]
    cases charDigit c with
    | none => rfl
    | some d => exact ih _

theorem parseNatAux_natDigits (fuel : Nat) :
    ∀ n : Nat, n < fuel → parseNatAux 0 (natDigits fuel n []) = some n := by
  induction fuel with
  | zero => intro n h; omega
  | succ fuel ih =>
    intro n hn
    by_cases h : n < 10
    · rw [natDigits, if_pos h]
      simp [parseNatAux, (digitChar_facts n h).1]
    · rw [natDigits_step fuel n h, parseNatAux_append, ih (n / 10) (by omega)]
      simp only [Option.some_bind, parseNatAux,
        (digitChar_facts (n % 10) (Nat.mod_lt _ (by norm_num))).1]
      congr 1
      omega

theorem parseNat_natDigits (n : Nat) : parseNat (natDigits (n + 1) n []) = some n := by
  unfold parseNat
  rw [if_neg (natDigits_ne_nil n n)]
  exact parseNatAux_natDigits (n + 1) n (by omega)

theorem parseInt_nonneg_head (c : Char) (cs : List Char) (h : c ≠ '-') :
    parseInt (c :: cs) = Option.map (fun n : Nat => (n : Int)) (parseNat (c :: cs)) := by
  unfold parseInt
  split
  · rename_i heq
    simp only [List.cons.injEq] at heq
    exact absurd heq.1 h
  · rfl

theorem parseInt_intToChars (n : Int) : parseInt (intToChars n) = some n := by
  unfold intToChars
  by_cases h : n < 0
  · rw [if_pos h]
    simp only [parseInt, parseNat_natDigits, Option.map_some']
    congr 1
    omega
  · rw [if_neg h]
    have hp := parseNat_natDigits n.natAbs
    cases hd : natDigits (n.natAbs + 1) n.natAbs [] with
    | nil => exact absurd hd (natDigits_ne_nil _ _)
    | cons c cs =>
      obtain ⟨d, hd10, hcd⟩ := natDigits_digit (n.natAbs + 1) n.natAbs c (by simp [hd])
      rw [hd] at hp
      rw [parseInt_nonneg_head c cs (by rw [hcd]; exact (digitChar_facts d hd10).2.2), hp]
      simp only [Option.map_some']
      congr 1
      omega

theorem intToChars_no_space (n : Int) : ' ' ∉ intToChars n := by
  have hd : ' ' ∉ natDigits (n.natAbs + 1) n.natAbs [] := by
    intro hmem
    obtain ⟨d, hd10, hcd⟩ := natDigits_digit _ _ _ hmem
    exact (digitChar_facts d hd10).2.1 hcd.symm
  unfold intToChars
  split
  · intro hmem
    rcases List.mem_cons.mp hmem with h | h
    · exact absurd h (by decide)
    · exact hd h
  · exact hd

theorem intToChars_ne_nil (n : Int) : intToChars n ≠ [] := by
  unfold intToChars
  split
  · simp
  · exact natDigits_ne_nil _ _

theorem intercalate_cons_cons (sep a b : List Char) (rest : List (List Char)) :
    List.intercalate sep (a :: b :: rest) = a ++ sep ++ List.intercalate sep (b :: rest) := by
  simp [List.intercalate, List.intersperse]

theorem ostreamCopy_eq (v : List Int) (h : v ≠ []) :
    ostreamCopy v = List.intercalate [' '] (v.map intToChars) ++ [' '] := by
  induction v with
  | nil => exact absurd rfl h
  | cons n rest ih =>
    cases rest with
    | nil => simp [ostreamCopy, List.intercalate, List.intersperse]
    | cons m rest =>
      rw [ostreamCopy, ih (by simp)]
      simp only [List.map_cons]
      rw [intercalate_cons_cons]
      simp

theorem ostreamCopy_count (v : List Int) : (ostreamCopy v).count ' ' = v.length := by
  induction v with
  | nil => rfl
  | cons n rest ih =>
    rw [ostreamCopy, List.count_append, List.count_cons_self, ih,
      List.count_eq_zero.mpr (intToChars_no_space n)]
    simp

theorem getAssociations_eq (best : Particle R)
    (hlen : (ostreamCopy best.associations).length < 2 ^ 64) :
    getAssociations best = List.intercalate [' '] (best.associations.map intToChars) := by
  unfold getAssociations substr
  simp only [List.drop_zero]
  by_cases h : best.associations = []
  · rw [h]
    rfl
  · have e := ostreamCopy_eq best.associations h
    have hl : (ostreamCopy best.associations).length
        = (List.intercalate [' '] (best.associations.map intToChars)).length + 1 := by
      rw [e]
      simp
    have hm : ((ostreamCopy best.associations).length + 2 ^ 64 - 1) % 2 ^ 64
        = (List.intercalate [' '] (best.associations.map intToChars)).length := by
      rw [hl] at hlen ⊢
      rw [show (List.intercalate [' '] (best.associations.map intToChars)).length + 1 + 2 ^ 64 - 1
          = (List.intercalate [' '] (best.associations.map intToChars)).length + 2 ^ 64 by omega,
        Nat.add_mod_right]
      exact Nat.mod_eq_of_lt (by omega)
    rw [hm, e]
    exact List.take_left _ _

theorem intercalate_first (a : List Char) (rest : List (List Char)) :
    ∃ t, List.intercalate [' '] (a :: rest) = a ++ t := by
  cases rest with
  | nil => exact ⟨[], by simp [List.intercalate, List.intersperse]⟩
  | cons b rest =>
    exact ⟨[' '] ++ List.intercalate [' '] (b :: rest), by
      rw [intercalate_cons_cons, List.append_assoc]⟩

theorem intercalate_last (ls : List (List Char)) (h : ls ≠ []) :
    ∃ t, List.intercalate [' '] ls = t ++ ls.getLast h := by
  induction ls with
  | nil => exact absurd rfl h
  | cons a rest ih =>
    cases rest with
    | nil => exact ⟨[], by simp [List.intercalate, List.intersperse]⟩
    | cons b rest =>
      obtain ⟨t, ht⟩ := ih (by simp)
      have hl : (a :: b :: rest).getLast h = (b :: rest).getLast (by simp) :=
        List.getLast_cons (by simp)
      refine ⟨a ++ [' '] ++ t, ?_⟩
      rw [intercalate_cons_cons, ht, hl]
      simp only [List.append_assoc]

/-- C10: provided the text fits the 64-bit `size_t`, `getAssociations` returns the decimal
renderings of the associated ids joined by single spaces: the empty string for no ids, and
for `k ≥ 1` ids a string with exactly `k - 1` spaces that neither starts nor ends with a
space and whose pieces between the spaces parse back to the ids in order. -/
theorem getAssociations_format (best : Particle R)
    (hlen : (ostreamCopy best.associations).length < 2 ^ 64) :
    getAssociations best = List.intercalate [' '] (best.associations.map intToChars) ∧
    (best.associations = [] → getAssociations best = []) ∧
    (best.associations ≠ [] →
      (getAssociations best).count ' ' = best.associations.length - 1 ∧
      (¬ ∃ t, getAssociations best = ' ' :: t) ∧
      (¬ ∃ t, getAssociations best = t ++ [' ']) ∧
      ((getAssociations best).splitOn ' ').map parseInt = best.associations.map some) := by
  have e := getAssociations_eq best hlen
  refine ⟨e, ?_, ?_⟩
  · intro h
    rw [e, h]
    rfl
  · intro h
    have hne : best.associations.map intToChars ≠ [] := by simpa using h
    have hsp : ∀ l ∈ best.associations.map intToChars, ' ' ∉ l := by
      intro l hl
      obtain ⟨n, _, hn⟩ := List.mem_map.mp hl
      rw [← hn]
      exact intToChars_no_space n
    refine ⟨?_, ?_, ?_, ?_⟩
    · have hc := ostreamCopy_count best.associations
      rw [ostreamCopy_eq best.associations h, List.count_append] at hc
      rw [e]
      simp only [List.count_cons_self, List.count_nil] at hc
      omega
    · rintro ⟨t, ht⟩
      rw [e] at ht
      obtain ⟨n, rest, hv⟩ := List.exists_cons_of_ne_nil h
      rw [hv, List.map_cons] at ht
      obtain ⟨u, hu⟩ := intercalate_first (intToChars n) (rest.map intToChars)
      rw [hu] at ht
      cases hc : intToChars n with
      | nil => exact intToChars_ne_nil n hc
      | cons c cs =>
        rw [hc] at ht
        simp only [List.cons_append, List.cons.injEq] at ht
        have hmem : ' ' ∈ intToChars n := by
          rw [hc, ← ht.1]
          exact List.mem_cons_self _ _
        exact intToChars_no_space n hmem
    · rintro ⟨t, ht⟩
      rw [e] at ht
      obtain ⟨u, hu⟩ := intercalate_last (best.associations.map intToChars) hne
      have hlast := List.getLast_mem hne
      have hnsp := hsp _ hlast
      generalize (best.associations.map intToChars).getLast hne = l at hu hlast hnsp
      have hlne : l ≠ [] := by
        obtain ⟨n, _, hn⟩ := List.mem_map.mp hlast
        rw [← hn]
        exact intToChars_ne_nil n
      rw [hu, ← List.dropLast_append_getLast hlne, ← List.append_assoc] at ht
      have h1 := List.append_inj_right' ht rfl
      simp only [List.cons.injEq, and_true] at h1
      exact hnsp (h1 ▸ List.getLast_mem hlne)
    · rw [e, List.splitOn_intercalate _ ' ' hsp hne, List.map_map]
      apply List.map_congr_left
      intro n _
      exact parseInt_intToChars n

/-- Witness of C10: a particle with the associations 12, -3, 0. -/
theorem getAssociations_format_witness :
    getAssociations ({ particleAt 0 (1 : ℚ) with associations := [12, -3, 0] })
      = ['1', '2', ' ', '-', '3', ' ', '0'] :=
  (getAssociations_format ({ particleAt 0 (1 : ℚ) with associations := [12, -3, 0] })
    (by decide)).1

/-! ## `updateWeights` beyond `FLT_MAX` -/

theorem dist_real_axis (a b : ℝ) : dist realMath a 0 b 0 = |b - a| := by
  unfold dist realMath
  simp only [sub_self, mul_zero, add_zero]
  exact Real.sqrt_mul_self_eq_abs _

theorem associate_far :
    dataAssociation realMath
        [{ id := 1, x := 0, y := 0 }, { id := 2, x := 10 ^ 38, y := 0 }]
        [{ id := 1, x := 45 * 10 ^ 37, y := 0 }]
      = [{ id := 1, x := 45 * 10 ^ 37, y := 0 }] := by
  have h1 : ¬ (FLT_MAX : ℝ) > dist realMath (45 * 10 ^ 37) 0 0 0 := by
    rw [dist_real_axis, abs_of_neg (by norm_num)]
    unfold FLT_MAX
    norm_num
  have h2 : ¬ (FLT_MAX : ℝ) > dist realMath (45 * 10 ^ 37) 0 (10 ^ 38) 0 := by
    rw [dist_real_axis, abs_of_neg (by norm_num)]
    unfold FLT_MAX
    norm_num
  simp only [dataAssociation, List.map_cons, List.map_nil, associateLoop, h1, h2, if_false]

theorem referenceWeight_far :
    referenceWeight realMath (particleAt 0 (1 : ℝ)) (10 ^ 39) (10 ^ 38) (10 ^ 38) farMap
        [farObservation]
      = likelihood realMath (10 ^ 38) (10 ^ 38) (45 * 10 ^ 37 - 10 ^ 38) (0 - 0) := by
  have hf : (farMap : Map ℝ).landmark_list.filter (fun lm =>
      decide (dist realMath (particleAt 0 (1 : ℝ)).x (particleAt 0 (1 : ℝ)).y lm.x_f lm.y_f
        ≤ 10 ^ 39)) = (farMap : Map ℝ).landmark_list := by
    apply List.filter_eq_self.mpr
    intro lm hlm
    simp only [farMap, List.mem_cons, List.mem_singleton, List.not_mem_nil, or_false] at hlm
    rcases hlm with h | h <;> subst h <;>
      simp only [particleAt, dist_real_axis, decide_eq_true_eq] <;> norm_num
  have hmx : realMath.cos (particleAt 0 (1 : ℝ)).theta * (farObservation : LandmarkObs ℝ).x
      - realMath.sin (particleAt 0 (1 : ℝ)).theta * (farObservation : LandmarkObs ℝ).y
      + (particleAt 0 (1 : ℝ)).x = 45 * 10 ^ 37 := by
    simp [particleAt, farObservation, realMath]
  have hmy : realMath.sin (particleAt 0 (1 : ℝ)).theta * (farObservation : LandmarkObs ℝ).x
      + realMath.cos (particleAt 0 (1 : ℝ)).theta * (farObservation : LandmarkObs ℝ).y
      + (particleAt 0 (1 : ℝ)).y = 0 := by
    simp [particleAt, farObservation, realMath]
  have hfn : firstNearest (fun lm : single_landmark_s ℝ =>
      dist realMath (45 * 10 ^ 37) 0 lm.x_f lm.y_f) (farMap : Map ℝ).landmark_list
      = some { id_i := 2, x_f := 10 ^ 38, y_f := 0 } := by
    have hlt : dist realMath (45 * 10 ^ 37) 0 (10 ^ 38) 0
        < dist realMath (45 * 10 ^ 37) 0 0 0 := by
      rw [dist_real_axis, dist_real_axis, abs_of_neg (by norm_num), abs_of_neg (by norm_num)]
      norm_num
    simp only [farMap, firstNearest, hlt, if_true]
  unfold referenceWeight
  simp only [List.map_cons, List.map_nil, List.prod_cons, List.prod_nil, mul_one,
    referenceFactor, hf, hmx, hmy, hfn]
  unfold likelihood
  congr 2
  ring

/-- C6 at a failing input: one particle at the origin with heading 0, sensor range `1e39`,
both standard deviations `1e38`, landmarks 1 at `(0, 0)` and 2 at `(1e38, 0)` (distinct ids,
both in range) and one observation at `(4.5e38, 0)` carrying the id 1.  The in-range
landmark nearest to the mapped observation is landmark 2, but both candidates are farther
than `FLT_MAX`, so `dataAssociation` leaves the id 1 and the weight is computed from the
offsets to landmark 1: it is the likelihood at `dx = 4.5e38`, not the reference weight, the
likelihood at `dx = 3.5e38`, that the claim gives. -/
theorem updateWeights_beyond_FLT_MAX (uninit : ℝ × ℝ) :
    (updateWeights realMath (10 ^ 39) (fun _ => 10 ^ 38) [farObservation] farMap uninit
        (oneParticle : FilterState ℝ Nat)).particles.map (fun p => p.weight)
      = [likelihood realMath (10 ^ 38) (10 ^ 38) (45 * 10 ^ 37 - 0) (0 - 0)] ∧
    referenceWeight realMath (particleAt 0 (1 : ℝ)) (10 ^ 39) (10 ^ 38) (10 ^ 38) farMap
        [farObservation]
      = likelihood realMath (10 ^ 38) (10 ^ 38) (45 * 10 ^ 37 - 10 ^ 38) (0 - 0) ∧
    likelihood realMath (10 ^ 38) (10 ^ 38) (45 * 10 ^ 37 - 0) (0 - 0)
      ≠ likelihood realMath (10 ^ 38) (10 ^ 38) (45 * 10 ^ 37 - 10 ^ 38) (0 - 0) := by
  refine ⟨?_, ?_, ?_⟩
  · have hpred : predictionsLoop (particleAt 0 (1 : ℝ)) (10 ^ 39 * 10 ^ 39)
        (farMap : Map ℝ).landmark_list
        = [{ id := 1, x := 0, y := 0 }, { id := 2, x := 10 ^ 38, y := 0 }] := by
      norm_num [predictionsLoop, farMap, particleAt]
    have hmap : [farObservation].map (mapObservation realMath (particleAt 0 (1 : ℝ)).x
        (particleAt 0 (1 : ℝ)).y (particleAt 0 (1 : ℝ)).theta)
        = [{ id := 1, x := 45 * 10 ^ 37, y := 0 }] := by
      simp [mapObservation, farObservation, particleAt, realMath]
    have hne : likelihood realMath (10 ^ 38) (10 ^ 38) (45 * 10 ^ 37 - 0) (0 - 0) ≠ 0 := by
      unfold likelihood realMath
      have := Real.pi_pos
      positivity
    have hup : updateParticle realMath (10 ^ 39) (fun _ => 10 ^ 38) [farObservation] farMap
        (particleAt 0 (1 : ℝ)) uninit
        = ({ particleAt 0 (1 : ℝ) with
              weight := likelihood realMath (10 ^ 38) (10 ^ 38) (45 * 10 ^ 37 - 0) (0 - 0) },
           (0, 0)) := by
      unfold updateParticle
      simp only [hpred, hmap, associate_far]
      simp only [weightLoop, lookupLoop, if_true, one_mul, if_neg hne]
    simp only [updateWeights, oneParticle, updateLoop, hup, List.map_cons, List.map_nil]
  · exact referenceWeight_far
  · unfold likelihood realMath
    intro h
    have hc : (1 / (2 * Real.pi * 10 ^ 38 * 10 ^ 38) : ℝ) ≠ 0 := by
      have := Real.pi_pos
      positivity
    have h1 := Real.exp_injective (mul_left_cancel₀ hc h)
    norm_num at h1

/-! ## `updateWeights`: the weight as a product of likelihoods -/

theorem firstNearest_mem {α : Type} (d : α → R) (l : List α) :
    ∀ c, firstNearest d l = some c → c ∈ l ∧ ∀ x ∈ l, d c ≤ d x := by
  induction l with
  | nil => intro c h; simp [firstNearest] at h
  | cons a rest ih =>
    intro c h
    rw [firstNearest] at h
    cases hr : firstNearest d rest with
    | none =>
      rw [hr] at h
      simp only [Option.some.injEq] at h
      subst h
      cases rest with
      | nil => simp
      | cons b rest1 =>
        rw [firstNearest] at hr
        split at hr
        · exact absurd hr (by simp)
        · split at hr <;> exact absurd hr (by simp)
    | some b =>
      rw [hr] at h
      obtain ⟨hb, hmin⟩ := ih b hr
      simp only at h
      by_cases hlt : d b < d a
      · rw [if_pos hlt, Option.some.injEq] at h
        subst h
        refine ⟨List.mem_cons_of_mem _ hb, ?_⟩
        intro x hx
        rcases List.mem_cons.mp hx with h1 | h1
        · rw [h1]; exact le_of_lt hlt
        · exact hmin x h1
      · rw [if_neg hlt, Option.some.injEq] at h
        subst h
        refine ⟨List.mem_cons_self _ _, ?_⟩
        intro x hx
        rcases List.mem_cons.mp hx with h1 | h1
        · rw [h1]
        · exact le_trans (not_lt.mp hlt) (hmin x h1)

theorem firstNearest_isSome {α : Type} (d : α → R) (l : List α) (h : l ≠ []) :
    ∃ c, firstNearest d l = some c := by
  cases l with
  | nil => exact absurd rfl h
  | cons a rest =>
    rw [firstNearest]
    cases firstNearest d rest with
    | none => exact ⟨a, rfl⟩
    | some b =>
      simp only
      by_cases hlt : d b < d a
      · exact ⟨b, by rw [if_pos hlt]⟩
      · exact ⟨a, by rw [if_neg hlt]⟩

theorem firstNearest_map {α β : Type} (f : α → β) (d : β → R) (l : List α) :
    firstNearest d (l.map f) = (firstNearest (fun a => d (f a)) l).map f := by
  induction l with
  | nil => rfl
  | cons a rest ih =>
    rw [List.map_cons, firstNearest, firstNearest, ih]
    cases firstNearest (fun a => d (f a)) rest with
    | none => rfl
    | some b =>
      simp only [Option.map_some']
      by_cases hlt : d (f b) < d (f a)
      · rw [if_pos hlt, if_pos hlt]; rfl
      · rw [if_neg hlt, if_neg hlt]; rfl

/-- The inner loop of `dataAssociation` as a function: the first nearest candidate wins
when it is closer than the initial `minD`, otherwise nothing changes. -/
theorem associateLoop_eq (mth : MathLib R) (preds : List (LandmarkObs R)) :
    ∀ (minD : R) (obs : LandmarkObs R),
      associateLoop mth preds minD obs =
        match firstNearest (fun c : LandmarkObs R => dist mth obs.x obs.y c.x c.y) preds with
        | none => (minD, obs)
        | some c =>
          if dist mth obs.x obs.y c.x c.y < minD then
            (dist mth obs.x obs.y c.x c.y, { obs with id := c.id })
          else (minD, obs) := by
  induction preds with
  | nil => intro minD obs; rfl
  | cons a rest ih =>
    intro minD obs
    rw [associateLoop, firstNearest]
    rw [ih, ih]
    cases firstNearest (fun c : LandmarkObs R => dist mth obs.x obs.y c.x c.y) rest with
    | none =>
      simp only [gt_iff_lt]
    | some b =>
      simp only [gt_iff_lt]
      by_cases h : dist mth obs.x obs.y a.x a.y < minD
      · by_cases hba : dist mth obs.x obs.y b.x b.y < dist mth obs.x obs.y a.x a.y
        · simp only [h, hba, if_true, lt_trans hba h]
        · simp only [h, hba, if_true, if_false]
      · by_cases hba : dist mth obs.x obs.y b.x b.y < dist mth obs.x obs.y a.x a.y
        · simp only [h, hba, if_true, if_false]
        · have hbm : ¬ dist mth obs.x obs.y b.x b.y < minD :=
            not_lt.mpr (le_trans (not_lt.mp h) (not_lt.mp hba))
          simp only [h, hba, hbm, if_false]

theorem predictionsLoop_eq (p : Particle R) (sensor_range_2 : R)
    (lms : List (single_landmark_s R)) :
    predictionsLoop p sensor_range_2 lms =
      (lms.filter (fun lm => decide ((p.x - lm.x_f) * (p.x - lm.x_f)
        + (p.y - lm.y_f) * (p.y - lm.y_f) ≤ sensor_range_2))).map toPrediction := by
  induction lms with
  | nil => rfl
  | cons lm rest ih =>
    rw [predictionsLoop, List.filter_cons]
    by_cases h : (p.x - lm.x_f) * (p.x - lm.x_f) + (p.y - lm.y_f) * (p.y - lm.y_f)
        ≤ sensor_range_2
    · simp only [h, if_true, decide_True, List.map_cons, ih]
      rfl
    · simp only [h, if_false, decide_False, ih]
      rfl

theorem lookupLoop_found (preds : List (LandmarkObs R))
    (hnd : (preds.map (fun c => c.id)).Nodup) (c : LandmarkObs R) (hc : c ∈ preds)
    (lmk : R × R) : lookupLoop c.id preds lmk = (c.x, c.y) := by
  induction preds with
  | nil => simp at hc
  | cons pr rest ih =>
    rw [lookupLoop]
    simp only [List.map_cons, List.nodup_cons] at hnd
    rcases List.mem_cons.mp hc with h | h
    · rw [h, if_pos rfl]
    · have hne : pr.id ≠ c.id := by
        intro he
        exact hnd.1 (he ▸ List.mem_map_of_mem (fun c => c.id) h)
      rw [if_neg hne]
      exact ih hnd.2 h

/-- The weight loop run on the output of `dataAssociation`: when the candidate ids are
pairwise distinct and every observation has a candidate closer than `FLT_MAX`, the weight
is multiplied, for every observation, by the (floored) likelihood of its offsets to its
first nearest candidate. -/
theorem weightLoop_dataAssociation (mth : MathLib R) (sr sb : R) (preds : List (LandmarkObs R))
    (hnd : (preds.map (fun c => c.id)).Nodup) (mapped : List (LandmarkObs R)) :
    (∀ m ∈ mapped, ∃ c ∈ preds, dist mth m.x m.y c.x c.y < FLT_MAX) →
    ∀ (w : R) (lmk : R × R),
      (weightLoop mth sr sb preds (dataAssociation mth preds mapped) w lmk).1 =
        w * (mapped.map (fun m =>
          match firstNearest (fun c : LandmarkObs R => dist mth m.x m.y c.x c.y) preds with
          | none => 1
          | some c => flooredFactor (likelihood mth sr sb (m.x - c.x) (m.y - c.y)))).prod := by
  induction mapped with
  | nil => intro _ w lmk; simp [dataAssociation, weightLoop]
  | cons m rest ih =>
    intro hnear w lmk
    obtain ⟨c1, hc1, hlt1⟩ := hnear m (List.mem_cons_self _ _)
    obtain ⟨c, hc⟩ := firstNearest_isSome
      (fun c : LandmarkObs R => dist mth m.x m.y c.x c.y) preds (List.ne_nil_of_mem hc1)
    obtain ⟨hcmem, hcmin⟩ := firstNearest_mem _ _ c hc
    have hlt : dist mth m.x m.y c.x c.y < FLT_MAX := lt_of_le_of_lt (hcmin c1 hc1) hlt1
    have hassoc : (associateLoop mth preds FLT_MAX m).2 = { m with id := c.id } := by
      rw [associateLoop_eq, hc]
      simp only [hlt, if_true]
    have hda : dataAssociation mth preds (m :: rest)
        = { m with id := c.id } :: dataAssociation mth preds rest := by
      simp only [dataAssociation, List.map_cons, hassoc]
    have ih1 := ih (fun m1 hm1 => hnear m1 (List.mem_cons_of_mem _ hm1))
    rw [hda, weightLoop, List.map_cons, List.prod_cons, hc]
    simp only [lookupLoop_found preds hnd c hcmem lmk]
    by_cases hz : likelihood mth sr sb (m.x - c.x) (m.y - c.y) = 0
    · rw [if_pos hz, ih1]
      simp only [flooredFactor, hz, if_true]
      ring
    · rw [if_neg hz, ih1]
      simp only [flooredFactor, hz, if_false]
      ring

theorem inRange_real (p : Particle ℝ) (sensor_range : ℝ) (hr : 0 ≤ sensor_range)
    (lm : single_landmark_s ℝ) :
    (p.x - lm.x_f) * (p.x - lm.x_f) + (p.y - lm.y_f) * (p.y - lm.y_f)
        ≤ sensor_range * sensor_range ↔
      dist realMath p.x p.y lm.x_f lm.y_f ≤ sensor_range := by
  unfold dist realMath
  simp only
  rw [Real.sqrt_le_left hr]
  constructor <;> intro h <;> nlinarith [h]

theorem likelihood_real_ne_zero (sr sb : ℝ) (hsr : sr ≠ 0) (hsb : sb ≠ 0) (dX dY : ℝ) :
    likelihood realMath sr sb dX dY ≠ 0 := by
  unfold likelihood realMath
  simp only
  exact mul_ne_zero
    (one_div_ne_zero (mul_ne_zero (mul_ne_zero (mul_ne_zero two_ne_zero Real.pi_ne_zero) hsr)
      hsb))
    (Real.exp_ne_zero _)

/-- The body of `updateWeights` for one particle, over the reals: with non-zero standard
deviations, pairwise distinct landmark ids, a landmark within sensor range, and every
mapped observation closer than `FLT_MAX` to some in-range landmark, the new weight is the
reference weight (product of the Gaussian likelihoods of the offsets to the nearest
in-range landmark). -/
theorem updateParticle_weight_real (sensor_range : ℝ) (std_landmark : Nat → ℝ)
    (observations : List (LandmarkObs ℝ)) (mp : Map ℝ) (p : Particle ℝ) (lmk : ℝ × ℝ)
    (hsr : std_landmark 0 ≠ 0) (hsb : std_landmark 1 ≠ 0)
    (hids : (mp.landmark_list.map (fun lm => lm.id_i)).Nodup)
    (hin : ∃ lm ∈ mp.landmark_list, dist realMath p.x p.y lm.x_f lm.y_f ≤ sensor_range)
    (hnear : ∀ o ∈ observations, ∃ lm ∈ mp.landmark_list,
      dist realMath p.x p.y lm.x_f lm.y_f ≤ sensor_range ∧
      dist realMath (mapObservation realMath p.x p.y p.theta o).x
        (mapObservation realMath p.x p.y p.theta o).y lm.x_f lm.y_f < FLT_MAX) :
    (updateParticle realMath sensor_range std_landmark observations mp p lmk).1.weight
      = referenceWeight realMath p sensor_range (std_landmark 0) (std_landmark 1) mp
          observations := by
  have hr : 0 ≤ sensor_range := by
    obtain ⟨lm, _, hlm⟩ := hin
    exact le_trans (Real.sqrt_nonneg _) hlm
  have hfilter : mp.landmark_list.filter (fun lm => decide ((p.x - lm.x_f) * (p.x - lm.x_f)
        + (p.y - lm.y_f) * (p.y - lm.y_f) ≤ sensor_range * sensor_range))
      = mp.landmark_list.filter
          (fun lm => decide (dist realMath p.x p.y lm.x_f lm.y_f ≤ sensor_range)) := by
    apply List.filter_congr
    intro lm _
    exact decide_eq_decide.mpr (inRange_real p sensor_range hr lm)
  have hnd : (((mp.landmark_list.filter
      (fun lm => decide (dist realMath p.x p.y lm.x_f lm.y_f ≤ sensor_range))).map
        toPrediction).map (fun c => c.id)).Nodup := by
    rw [List.map_map]
    exact List.Nodup.sublist (List.Sublist.map _ (List.filter_sublist _)) hids
  have hnear1 : ∀ m ∈ observations.map (mapObservation realMath p.x p.y p.theta),
      ∃ c ∈ (mp.landmark_list.filter
          (fun lm => decide (dist realMath p.x p.y lm.x_f lm.y_f ≤ sensor_range))).map
            toPrediction,
        dist realMath m.x m.y c.x c.y < FLT_MAX := by
    intro m hm
    obtain ⟨o, ho, hom⟩ := List.mem_map.mp hm
    obtain ⟨lm, hlm, hrange, hlt⟩ := hnear o ho
    refine ⟨toPrediction lm, List.mem_map_of_mem _ (List.mem_filter.mpr ⟨hlm, ?_⟩), ?_⟩
    · exact decide_eq_true hrange
    · rw [← hom]
      exact hlt
  unfold updateParticle
  simp only
  rw [predictionsLoop_eq, hfilter, weightLoop_dataAssociation realMath _ _ _ hnd _ hnear1,
    one_mul]
  unfold referenceWeight
  rw [List.map_map]
  congr 1
  apply List.map_congr_left
  intro o _
  simp only [Function.comp_apply, referenceFactor]
  have hxy : (mapObservation realMath p.x p.y p.theta o).x
      = realMath.cos p.theta * o.x - realMath.sin p.theta * o.y + p.x ∧
      (mapObservation realMath p.x p.y p.theta o).y
      = realMath.sin p.theta * o.x + realMath.cos p.theta * o.y + p.y := ⟨rfl, rfl⟩
  rw [hxy.1, hxy.2]
  have hfn : firstNearest (fun c : LandmarkObs ℝ =>
        dist realMath (realMath.cos p.theta * o.x - realMath.sin p.theta * o.y + p.x)
          (realMath.sin p.theta * o.x + realMath.cos p.theta * o.y + p.y) c.x c.y)
        ((mp.landmark_list.filter
          (fun lm => decide (dist realMath p.x p.y lm.x_f lm.y_f ≤ sensor_range))).map
            toPrediction)
      = (firstNearest (fun lm : single_landmark_s ℝ =>
        dist realMath (realMath.cos p.theta * o.x - realMath.sin p.theta * o.y + p.x)
          (realMath.sin p.theta * o.x + realMath.cos p.theta * o.y + p.y) lm.x_f lm.y_f)
        (mp.landmark_list.filter
          (fun lm => decide (dist realMath p.x p.y lm.x_f lm.y_f ≤ sensor_range)))).map
            toPrediction :=
    firstNearest_map toPrediction _ _
  rw [hfn]
  cases firstNearest (fun lm : single_landmark_s ℝ =>
      dist realMath (realMath.cos p.theta * o.x - realMath.sin p.theta * o.y + p.x)
        (realMath.sin p.theta * o.x + realMath.cos p.theta * o.y + p.y) lm.x_f lm.y_f)
      (mp.landmark_list.filter
        (fun lm => decide (dist realMath p.x p.y lm.x_f lm.y_f ≤ sensor_range))) with
  | none => rfl
  | some lm =>
    simp only [Option.map_some']
    rw [flooredFactor, if_neg (likelihood_real_ne_zero _ _ hsr hsb _ _)]
    unfold likelihood toPrediction
    simp only
    congr 2
    ring

theorem updateLoop_getElem (mth : MathLib R) (sensor_range : R) (std_landmark : Nat → R)
    (observations : List (LandmarkObs R)) (map_landmarks : Map R) (ps : List (Particle R)) :
    ∀ (lmk : R × R) (i : Nat) (p : Particle R), ps[i]? = some p →
      ∃ lmk1 : R × R,
        (updateLoop mth sensor_range std_landmark observations map_landmarks ps lmk)[i]?
          = some (updateParticle mth sensor_range std_landmark observations map_landmarks
              p lmk1).1 := by
  induction ps with
  | nil => intro lmk i p h; simp at h
  | cons q qs ih =>
    intro lmk i p h
    rw [updateLoop]
    cases i with
    | zero =>
      simp only [List.getElem?_cons_zero, Option.some.injEq] at h
      exact ⟨lmk, by simp [h]⟩
    | succ i =>
      simp only [List.getElem?_cons_succ] at h
      obtain ⟨lmk1, h1⟩ := ih
        (updateParticle mth sensor_range std_landmark observations map_landmarks q lmk).2 i p h
      exact ⟨lmk1, by simpa using h1⟩

/-- The weights after `updateWeights` over the reals: for a particle whose pose satisfies
the conditions of `updateParticle_weight_real` (non-zero standard deviations, distinct
landmark ids, a landmark in range, every mapped observation closer than `FLT_MAX` to an
in-range landmark) the new weight is the reference weight, whatever the weight before and
whatever `landmarkX`, `landmarkY` held. -/
theorem updateWeights_weight_real (sensor_range : ℝ) (std_landmark : Nat → ℝ)
    (observations : List (LandmarkObs ℝ)) (mp : Map ℝ) (uninit : ℝ × ℝ) {G : Type}
    (st : FilterState ℝ G) (i : Nat) (p : Particle ℝ) (hp : st.particles[i]? = some p)
    (hsr : std_landmark 0 ≠ 0) (hsb : std_landmark 1 ≠ 0)
    (hids : (mp.landmark_list.map (fun lm => lm.id_i)).Nodup)
    (hin : ∃ lm ∈ mp.landmark_list, dist realMath p.x p.y lm.x_f lm.y_f ≤ sensor_range)
    (hnear : ∀ o ∈ observations, ∃ lm ∈ mp.landmark_list,
      dist realMath p.x p.y lm.x_f lm.y_f ≤ sensor_range ∧
      dist realMath (mapObservation realMath p.x p.y p.theta o).x
        (mapObservation realMath p.x p.y p.theta o).y lm.x_f lm.y_f < FLT_MAX) :
    ∃ q, (updateWeights realMath sensor_range std_landmark observations mp uninit
        st).particles[i]? = some q ∧
      q.weight = referenceWeight realMath p sensor_range (std_landmark 0) (std_landmark 1) mp
        observations := by
  obtain ⟨lmk1, h1⟩ := updateLoop_getElem realMath sensor_range std_landmark observations mp
    st.particles uninit i p hp
  exact ⟨_, h1, updateParticle_weight_real sensor_range std_landmark observations mp p lmk1
    hsr hsb hids hin hnear⟩

/-! ## `SetAssociations` -/

/-- C11: `SetAssociations` returns the given particle with the three annotation lists
replaced by the arguments and id, position, heading and weight unchanged, whatever
annotations the particle carried, and it leaves the filter state as it was. -/
theorem SetAssociations_frame (st : FilterState R G) (p : Particle R) (a : List Int)
    (sx sy : List R) :
    (SetAssociations st p a sx sy).1.associations = a ∧
    (SetAssociations st p a sx sy).1.sense_x = sx ∧
    (SetAssociations st p a sx sy).1.sense_y = sy ∧
    (SetAssociations st p a sx sy).1.id = p.id ∧
    (SetAssociations st p a sx sy).1.x = p.x ∧
    (SetAssociations st p a sx sy).1.y = p.y ∧
    (SetAssociations st p a sx sy).1.theta = p.theta ∧
    (SetAssociations st p a sx sy).1.weight = p.weight ∧
    (SetAssociations st p a sx sy).2 = st :=
  ⟨rfl, rfl, rfl, rfl, rfl, rfl, rfl, rfl, rfl⟩

/-! ## `dataAssociation`: frame and idempotence -/

/-- C12: with no candidate landmarks `dataAssociation` returns the observations exactly as
they were (ids, positions, length and order). -/
theorem dataAssociation_no_candidates (mth : MathLib R) (observations : List (LandmarkObs R)) :
    dataAssociation mth [] observations = observations := by
  unfold dataAssociation
  simp only [associateLoop]
  exact List.map_id _

theorem associate_idem (mth : MathLib R) (predicted : List (LandmarkObs R))
    (obs : LandmarkObs R) :
    (associateLoop mth predicted FLT_MAX (associateLoop mth predicted FLT_MAX obs).2).2
      = (associateLoop mth predicted FLT_MAX obs).2 := by
  rw [associateLoop_eq mth predicted FLT_MAX obs]
  cases hfn : firstNearest (fun c : LandmarkObs R => dist mth obs.x obs.y c.x c.y)
      predicted with
  | none =>
    simp only
    rw [associateLoop_eq, hfn]
  | some c =>
    simp only
    by_cases hlt : dist mth obs.x obs.y c.x c.y < FLT_MAX
    · rw [if_pos hlt]
      simp only
      rw [associateLoop_eq]
      simp only [hfn, hlt, if_true]
    · rw [if_neg hlt]
      simp only
      rw [associateLoop_eq, hfn]
      simp only [hlt, if_false]

/-- C13: `dataAssociation` is idempotent (applying it again, with the same candidates, to
its own output changes nothing) and deterministic (equal inputs give equal outputs). -/
theorem dataAssociation_idempotent (mth : MathLib R) :
    (∀ predicted observations : List (LandmarkObs R),
      dataAssociation mth predicted (dataAssociation mth predicted observations)
        = dataAssociation mth predicted observations) ∧
    (∀ predicted predicted1 observations observations1 : List (LandmarkObs R),
      predicted = predicted1 → observations = observations1 →
      dataAssociation mth predicted observations
        = dataAssociation mth predicted1 observations1) := by
  constructor
  · intro predicted observations
    unfold dataAssociation
    rw [List.map_map]
    apply List.map_congr_left
    intro obs _
    exact associate_idem mth predicted obs
  · intro predicted predicted1 observations observations1 h1 h2
    rw [h1, h2]

/-- Witness of C13: two equal calls over the reals. -/
theorem dataAssociation_idempotent_witness :
    dataAssociation realMath [{ id := 7, x := 0, y := 0 }] [{ id := 0, x := 1, y := 0 }]
      = dataAssociation realMath [{ id := 7, x := 0, y := 0 }] [{ id := 0, x := 1, y := 0 }] :=
  (dataAssociation_idempotent realMath).2 _ _ _ _ rfl rfl

/-! ## `updateWeights` without observations -/

theorem updateLoop_no_observations (mth : MathLib R) (sensor_range : R)
    (std_landmark : Nat → R) (map_landmarks : Map R) (ps : List (Particle R)) :
    ∀ lmk : R × R,
      updateLoop mth sensor_range std_landmark [] map_landmarks ps lmk
        = ps.map (fun p => { p with weight := 1 }) := by
  induction ps with
  | nil => intro lmk; rfl
  | cons p ps ih =>
    intro lmk
    rw [updateLoop, ih]
    simp only [updateParticle, List.map_nil, dataAssociation, weightLoop, List.map_cons]

/-- C15: with an empty observation list `updateWeights` gives every particle the weight 1,
whatever its weight before the call, the sensor range, the standard deviations and the
map; nothing else of the particles changes. -/
theorem updateWeights_no_observations (mth : MathLib R) (sensor_range : R)
    (std_landmark : Nat → R) (map_landmarks : Map R) (uninit : R × R)
    (st : FilterState R G) :
    (updateWeights mth sensor_range std_landmark [] map_landmarks uninit st).particles
        = st.particles.map (fun p => { p with weight := 1 }) ∧
    ∀ p ∈ (updateWeights mth sensor_range std_landmark [] map_landmarks uninit st).particles,
      p.weight = 1 := by
  have h : (updateWeights mth sensor_range std_landmark [] map_landmarks uninit st).particles
      = st.particles.map (fun p => { p with weight := 1 }) :=
    updateLoop_no_observations mth sensor_range std_landmark map_landmarks st.particles uninit
  refine ⟨h, ?_⟩
  intro p hp
  rw [h] at hp
  obtain ⟨q, _, hq⟩ := List.mem_map.mp hp
  rw [← hq]

/-- Witness of C15: two particles of weights 1 and 3 and a map with two landmarks. -/
theorem updateWeights_no_observations_witness :
    (updateWeights realMath 50 (fun _ => 1) [] nearMap (0, 0)
        (twoParticles : FilterState ℝ Nat)).particles
      = (twoParticles : FilterState ℝ Nat).particles.map (fun p => { p with weight := 1 }) :=
  (updateWeights_no_observations realMath 50 (fun _ => 1) nearMap (0, 0) twoParticles).1

/-! ## `init` and the shared engine -/

/-- C19: `init` draws only from its own local engine: on uninitialized states that differ
only in the shared engine it produces the same particles (and count and flag), and it
leaves the shared engine of the state as it was. -/
theorem init_independent_of_gen (rnd : RandomLib R G) (x y theta : R) (std : Nat → R)
    (st : FilterState R G) (g1 : G) (hinit : st.is_initialized = false) :
    (init rnd x y theta std { st with gen := g1 }).particles
      = (init rnd x y theta std st).particles ∧
    (init rnd x y theta std { st with gen := g1 }).num_particles
      = (init rnd x y theta std st).num_particles ∧
    (init rnd x y theta std { st with gen := g1 }).is_initialized
      = (init rnd x y theta std st).is_initialized ∧
    (init rnd x y theta std st).gen = st.gen ∧
    (init rnd x y theta std { st with gen := g1 }).gen = g1 := by
  simp only [init, hinit, Bool.false_eq_true, if_false]
  exact ⟨trivial, trivial, trivial, trivial, trivial⟩

/-- Witness of C19: a fresh filter whose shared engine is moved to state 7. -/
theorem init_independent_of_gen_witness :
    (freshFilter : FilterState ℚ Nat).is_initialized = false ∧
    (init meanRandom 4 5 (1 / 2) (fun _ => 1)
        { (freshFilter : FilterState ℚ Nat) with gen := 7 }).particles
      = (init meanRandom 4 5 (1 / 2) (fun _ => 1) (freshFilter : FilterState ℚ Nat)).particles :=
  ⟨rfl, (init_independent_of_gen meanRandom 4 5 (1 / 2) (fun _ => 1) freshFilter 7 rfl).1⟩

/-! ## `updateWeights`: an observation on a landmark -/

theorem dist_real_self (a b : ℝ) : dist realMath a b a b = 0 := by
  unfold dist realMath
  simp

theorem dist_real_eq_zero (a b c d : ℝ) (h : dist realMath a b c d ≤ 0) :
    a - c = 0 ∧ b - d = 0 := by
  unfold dist realMath at h
  simp only at h
  have h0 : Real.sqrt ((c - a) * (c - a) + (d - b) * (d - b)) = 0 :=
    le_antisymm h (Real.sqrt_nonneg _)
  have hs := Real.sqrt_eq_zero'.mp h0
  have h1 : (c - a) * (c - a) = 0 := by nlinarith [mul_self_nonneg (c - a), mul_self_nonneg (d - b)]
  have h2 : (d - b) * (d - b) = 0 := by nlinarith [mul_self_nonneg (c - a), mul_self_nonneg (d - b)]
  have h3 := mul_self_eq_zero.mp h1
  have h4 := mul_self_eq_zero.mp h2
  constructor <;> linarith

theorem referenceFactor_peak (p : Particle ℝ) (sensor_range s_r s_b : ℝ) (mp : Map ℝ)
    (o : LandmarkObs ℝ) (lm : single_landmark_s ℝ) (hlm : lm ∈ mp.landmark_list)
    (hrange : dist realMath p.x p.y lm.x_f lm.y_f ≤ sensor_range)
    (hx : (mapObservation realMath p.x p.y p.theta o).x = lm.x_f)
    (hy : (mapObservation realMath p.x p.y p.theta o).y = lm.y_f) :
    referenceFactor realMath p sensor_range s_r s_b mp o = 1 / (2 * Real.pi * s_r * s_b) := by
  have hx1 : realMath.cos p.theta * o.x - realMath.sin p.theta * o.y + p.x = lm.x_f := hx
  have hy1 : realMath.sin p.theta * o.x + realMath.cos p.theta * o.y + p.y = lm.y_f := hy
  unfold referenceFactor
  simp only [hx1, hy1]
  have hmem : lm ∈ mp.landmark_list.filter
      (fun lm1 => decide (dist realMath p.x p.y lm1.x_f lm1.y_f ≤ sensor_range)) :=
    List.mem_filter.mpr ⟨hlm, decide_eq_true hrange⟩
  obtain ⟨c, hc⟩ := firstNearest_isSome
    (fun lm1 : single_landmark_s ℝ => dist realMath lm.x_f lm.y_f lm1.x_f lm1.y_f)
    _ (List.ne_nil_of_mem hmem)
  rw [hc]
  simp only
  have hle := (firstNearest_mem _ _ c hc).2 lm hmem
  simp only [dist_real_self] at hle
  obtain ⟨e1, e2⟩ := dist_real_eq_zero _ _ _ _ hle
  rw [e1, e2]
  simp [realMath]

/-- C14: over the reals, with positive standard deviations and pairwise distinct landmark
ids, when the only observation is mapped by the pose of a particle exactly onto a landmark
within sensor range of that particle, the weight of the particle after `updateWeights` is
exactly `1 / (2 * pi * s_r * s_b)`. -/
theorem updateWeights_peak (sensor_range : ℝ) (std_landmark : Nat → ℝ) (o : LandmarkObs ℝ)
    (mp : Map ℝ) (uninit : ℝ × ℝ) {G : Type} (st : FilterState ℝ G) (i : Nat)
    (p : Particle ℝ) (hp : st.particles[i]? = some p)
    (hsr : 0 < std_landmark 0) (hsb : 0 < std_landmark 1)
    (hids : (mp.landmark_list.map (fun lm => lm.id_i)).Nodup)
    (lm : single_landmark_s ℝ) (hlm : lm ∈ mp.landmark_list)
    (hrange : dist realMath p.x p.y lm.x_f lm.y_f ≤ sensor_range)
    (hx : (mapObservation realMath p.x p.y p.theta o).x = lm.x_f)
    (hy : (mapObservation realMath p.x p.y p.theta o).y = lm.y_f) :
    ∃ q, (updateWeights realMath sensor_range std_landmark [o] mp uninit st).particles[i]?
        = some q ∧
      q.weight = 1 / (2 * Real.pi * std_landmark 0 * std_landmark 1) := by
  have hflt : (0 : ℝ) < FLT_MAX := by
    unfold FLT_MAX
    norm_num
  obtain ⟨q, hq, hw⟩ := updateWeights_weight_real sensor_range std_landmark [o] mp uninit st
    i p hp (ne_of_gt hsr) (ne_of_gt hsb) hids ⟨lm, hlm, hrange⟩
    (by
      intro o1 ho1
      rw [List.mem_singleton] at ho1
      subst ho1
      refine ⟨lm, hlm, hrange, ?_⟩
      rw [hx, hy, dist_real_self]
      exact hflt)
  refine ⟨q, hq, ?_⟩
  rw [hw]
  unfold referenceWeight
  simp only [List.map_cons, List.map_nil, List.prod_cons, List.prod_nil, mul_one]
  exact referenceFactor_peak p sensor_range _ _ mp o lm hlm hrange hx hy

/-- Witness of C14: a particle at the origin with heading 0, unit standard deviations,
sensor range 50, and an observation that lands on the landmark at `(3, 4)`. -/
theorem updateWeights_peak_witness :
    dist realMath (particleAt 0 (1 : ℝ)).x (particleAt 0 (1 : ℝ)).y 3 4 ≤ 50 ∧
    (mapObservation realMath (particleAt 0 (1 : ℝ)).x (particleAt 0 (1 : ℝ)).y
      (particleAt 0 (1 : ℝ)).theta nearObservation).x = 3 ∧
    (mapObservation realMath (particleAt 0 (1 : ℝ)).x (particleAt 0 (1 : ℝ)).y
      (particleAt 0 (1 : ℝ)).theta nearObservation).y = 4 ∧
    ∃ q, (updateWeights realMath 50 (fun _ => 1) [nearObservation] nearMap (0, 0)
        (oneParticle : FilterState ℝ Nat)).particles[0]? = some q ∧
      q.weight = 1 / (2 * Real.pi * 1 * 1) :=
  have hrange : dist realMath (particleAt 0 (1 : ℝ)).x (particleAt 0 (1 : ℝ)).y 3 4 ≤ 50 := by
    unfold dist realMath particleAt
    simp only
    rw [Real.sqrt_le_left (by norm_num)]
    norm_num
  have hx : (mapObservation realMath (particleAt 0 (1 : ℝ)).x (particleAt 0 (1 : ℝ)).y
      (particleAt 0 (1 : ℝ)).theta nearObservation).x = 3 := by
    simp [mapObservation, particleAt, nearObservation, realMath]
  have hy : (mapObservation realMath (particleAt 0 (1 : ℝ)).x (particleAt 0 (1 : ℝ)).y
      (particleAt 0 (1 : ℝ)).theta nearObservation).y = 4 := by
    simp [mapObservation, particleAt, nearObservation, realMath]
  ⟨hrange, hx, hy,
   updateWeights_peak 50 (fun _ => 1) nearObservation nearMap (0, 0) oneParticle 0
     (particleAt 0 1) rfl one_pos one_pos (by simp [nearMap])
     { id_i := 1, x_f := 3, y_f := 4 } (by simp [nearMap]) hrange hx hy⟩

/-! ## The candidate set of `updateWeights` -/

/-- C17 (amended): over the reals and for a sensor range that is not negative, the
candidate list built by the squared-distance test of `updateWeights` is exactly the list of
the landmarks whose Euclidean distance to the particle is at most `sensor_range`, in map
order, with id and position kept. -/
theorem candidates_within_range (p : Particle ℝ) (sensor_range : ℝ) (hr : 0 ≤ sensor_range)
    (mp : Map ℝ) :
    predictionsLoop p (sensor_range * sensor_range) mp.landmark_list
      = landmarksWithin realMath p.x p.y sensor_range mp.landmark_list := by
  rw [predictionsLoop_eq]
  unfold landmarksWithin
  congr 1
  apply List.filter_congr
  intro lm _
  exact decide_eq_decide.mpr (inRange_real p sensor_range hr lm)

/-- Witness of C17 (amended): sensor range 50 and the map with landmarks at `(3, 4)` and
`(10, 0)`. -/
theorem candidates_within_range_witness :
    (0 : ℝ) ≤ 50 ∧
    predictionsLoop (particleAt 0 (1 : ℝ)) (50 * 50) (nearMap : Map ℝ).landmark_list
      = landmarksWithin realMath (particleAt 0 (1 : ℝ)).x (particleAt 0 (1 : ℝ)).y 50
          (nearMap : Map ℝ).landmark_list :=
  ⟨by norm_num, candidates_within_range (particleAt 0 1) 50 (by norm_num) nearMap⟩

/-- C17 refuted as stated: with the sensor range `-10` and a particle at the origin, both
landmarks of the map, at distances 5 and 10, pass the squared test
(`25 ≤ 100`, `100 ≤ 100`) and are candidates, while no landmark is at a distance of at most
`-10`. -/
theorem candidates_negative_range :
    predictionsLoop (particleAt 0 (1 : ℝ)) ((-10) * (-10)) (nearMap : Map ℝ).landmark_list
      = [{ id := 1, x := 3, y := 4 }, { id := 2, x := 10, y := 0 }] ∧
    landmarksWithin realMath (particleAt 0 (1 : ℝ)).x (particleAt 0 (1 : ℝ)).y (-10)
      (nearMap : Map ℝ).landmark_list = [] ∧
    predictionsLoop (particleAt 0 (1 : ℝ)) ((-10) * (-10)) (nearMap : Map ℝ).landmark_list
      ≠ landmarksWithin realMath (particleAt 0 (1 : ℝ)).x (particleAt 0 (1 : ℝ)).y (-10)
          (nearMap : Map ℝ).landmark_list := by
  have h1 : predictionsLoop (particleAt 0 (1 : ℝ)) ((-10) * (-10))
      (nearMap : Map ℝ).landmark_list
      = [{ id := 1, x := 3, y := 4 }, { id := 2, x := 10, y := 0 }] := by
    norm_num [predictionsLoop, nearMap, particleAt]
  have h2 : landmarksWithin realMath (particleAt 0 (1 : ℝ)).x (particleAt 0 (1 : ℝ)).y (-10)
      (nearMap : Map ℝ).landmark_list = [] := by
    unfold landmarksWithin
    rw [List.map_eq_nil_iff, List.filter_eq_nil_iff]
    intro lm _
    simp only [decide_eq_true_eq, not_le]
    exact lt_of_lt_of_le (by norm_num) (Real.sqrt_nonneg _)
  refine ⟨h1, h2, ?_⟩
  rw [h1, h2]
  simp

/-! ## Continuity of the motion model at yaw rate zero -/

/-- The two branches of `ctrvReference` without noise are `straightUpdate` and
`turnUpdate`. -/
theorem ctrvReference_no_noise (mth : MathLib R) (delta_t v w : R) (pose : R × R × R) :
    ctrvReference mth delta_t v w pose (0, 0, 0) =
      if |w| < 0.00001 then straightUpdate mth delta_t v pose
      else turnUpdate mth delta_t v w pose := by
  unfold ctrvReference straightUpdate turnUpdate
  split <;> simp

theorem slope_sin_tendsto (h delta_t : ℝ) :
    Filter.Tendsto (fun w : ℝ => (Real.sin (h + w * delta_t) - Real.sin h) / w)
      (nhdsWithin 0 {0}ᶜ) (nhds (Real.cos h * delta_t)) := by
  have hg : HasDerivAt (fun w : ℝ => h + w * delta_t) delta_t 0 := by
    simpa using ((hasDerivAt_id (0 : ℝ)).mul_const delta_t).const_add h
  have hs : HasDerivAt (fun w : ℝ => Real.sin (h + w * delta_t)) (Real.cos h * delta_t) 0 := by
    simpa using hg.sin
  have key := hasDerivAt_iff_tendsto_slope.mp hs
  refine key.congr ?_
  intro w
  rw [slope_def_field]
  simp

theorem slope_cos_tendsto (h delta_t : ℝ) :
    Filter.Tendsto (fun w : ℝ => (Real.cos h - Real.cos (h + w * delta_t)) / w)
      (nhdsWithin 0 {0}ᶜ) (nhds (Real.sin h * delta_t)) := by
  have hg : HasDerivAt (fun w : ℝ => h + w * delta_t) delta_t 0 := by
    simpa using ((hasDerivAt_id (0 : ℝ)).mul_const delta_t).const_add h
  have hs : HasDerivAt (fun w : ℝ => Real.cos (h + w * delta_t)) (-Real.sin h * delta_t) 0 := by
    simpa using hg.cos
  have key := (hasDerivAt_iff_tendsto_slope.mp hs).neg
  have e : -(-Real.sin h * delta_t) = Real.sin h * delta_t := by ring
  rw [e] at key
  refine key.congr ?_
  intro w
  rw [slope_def_field]
  simp only [zero_mul, add_zero, sub_zero]
  ring

/-- C16: over the reals, for every pose `(x, y, h)`, velocity `v` and `delta_t`, the
noise-free closed-form CTRV update tends to the noise-free straight-line update as the yaw
rate `w` tends to 0 through non-zero values. -/
theorem turnUpdate_tendsto_straightUpdate (delta_t v x y h : ℝ) :
    Filter.Tendsto (fun w : ℝ => turnUpdate realMath delta_t v w (x, y, h))
      (nhdsWithin 0 {0}ᶜ) (nhds (straightUpdate realMath delta_t v (x, y, h))) := by
  unfold turnUpdate straightUpdate realMath
  simp only
  refine Filter.Tendsto.prod_mk_nhds ?_ (Filter.Tendsto.prod_mk_nhds ?_ ?_)
  · have h1 := ((slope_sin_tendsto h delta_t).const_mul v).const_add x
    have e : x + v * (Real.cos h * delta_t) = x + v * delta_t * Real.cos h := by ring
    rw [e] at h1
    refine h1.congr ?_
    intro w
    ring
  · have h1 := ((slope_cos_tendsto h delta_t).const_mul v).const_add y
    have e : y + v * (Real.sin h * delta_t) = y + v * delta_t * Real.sin h := by ring
    rw [e] at h1
    refine h1.congr ?_
    intro w
    ring
  · have hc : Continuous (fun w : ℝ => h + w * delta_t) := by continuity
    have h1 := (hc.tendsto 0).mono_left (nhdsWithin_le_nhds (s := ({0}ᶜ : Set ℝ)))
    simpa using h1

/-! ## Particle identifiers -/

theorem initLoop_ids (rnd : RandomLib R G) (x y theta : R) (std : Nat → R) (n : Nat) :
    ∀ (i : Int) (g : G) (ps : List (Particle R)),
      (initLoop rnd x y theta std n i g ps).map (fun p => p.id)
        = ps.map (fun p => p.id) ++ (List.range n).map (fun k : Nat => i + (k : Int)) := by
  induction n with
  | zero => intro i g ps; simp [initLoop]
  | succ n ih =>
    intro i g ps
    simp only [initLoop]
    rw [ih, List.range_succ_eq_map]
    simp only [List.map_append, List.map_cons, List.map_nil, List.map_map, List.append_assoc,
      List.singleton_append, Nat.cast_zero, add_zero]
    congr 2
    apply List.map_congr_left
    intro k _
    simp only [Function.comp_apply, Nat.cast_succ]
    ring

theorem predictionLoop_ids (mth : MathLib R) (rnd : RandomLib R G) (delta_t : R)
    (std_pos : Nat → R) (velocity yaw_rate : R) (ps : List (Particle R)) :
    ∀ g : G, (predictionLoop mth rnd delta_t std_pos velocity yaw_rate ps g).1.map
      (fun p => p.id) = ps.map (fun p => p.id) := by
  induction ps with
  | nil => intro g; rfl
  | cons p ps ih =>
    intro g
    simp only [predictionLoop, List.map_cons, ih, predictionStep_eq]

theorem updateLoop_ids (mth : MathLib R) (sensor_range : R) (std_landmark : Nat → R)
    (observations : List (LandmarkObs R)) (map_landmarks : Map R) (ps : List (Particle R)) :
    ∀ lmk : R × R,
      (updateLoop mth sensor_range std_landmark observations map_landmarks ps lmk).map
        (fun p => p.id) = ps.map (fun p => p.id) := by
  induction ps with
  | nil => intro lmk; rfl
  | cons p ps ih =>
    intro lmk
    simp only [updateLoop, List.map_cons, ih, updateParticle]

/-- C18 (amended): in every state reachable from a freshly constructed filter by `init`
followed by `prediction` and `updateWeights` calls the ids of the particles are
`0, 1, ..., 99` in order, hence pairwise distinct. -/
theorem ids_distinct_before_resample (mth : MathLib R) (rnd : RandomLib R G)
    (st : FilterState R G) (h : ReachableBeforeResample mth rnd st) :
    st.particles.map (fun p => p.id) = (List.range 100).map (fun k : Nat => (k : Int)) ∧
    (st.particles.map (fun p => p.id)).Nodup := by
  have hids : st.particles.map (fun p => p.id) = (List.range 100).map (fun k : Nat => (k : Int)) := by
    induction h with
    | init st0 x y theta std hinit hemp =>
      simp only [init, hinit, hemp, Bool.false_eq_true, if_false]
      rw [initLoop_ids]
      simp
    | prediction st delta_t std_pos velocity yaw_rate _ ih =>
      simp only [prediction, predictionLoop_ids]
      exact ih
    | updateWeights st sensor_range std_landmark observations map_landmarks uninit _ ih =>
      simp only [updateWeights, updateLoop_ids]
      exact ih
  refine ⟨hids, ?_⟩
  rw [hids]
  exact (List.nodup_range 100).map (fun a b hab => by exact_mod_cast hab)

/-- Witness of C18 (amended): the state right after `init`. -/
theorem ids_distinct_before_resample_witness :
    ReachableBeforeResample realMath meanRandom
      (init meanRandom 0 0 0 (fun _ => 1) (freshFilter : FilterState ℝ Nat)) ∧
    ((init meanRandom 0 0 0 (fun _ => 1) (freshFilter : FilterState ℝ Nat)).particles.map
      (fun p => p.id)).Nodup :=
  ⟨ReachableBeforeResample.init freshFilter 0 0 0 (fun _ => 1) rfl rfl,
   (ids_distinct_before_resample realMath meanRandom _
     (ReachableBeforeResample.init freshFilter 0 0 0 (fun _ => 1) rfl rfl)).2⟩

theorem resampleLoop_lowRandom (particles : List (Particle R)) (weights : List R) (N : Int)
    (maxWeight w0 : R) (p0 : Particle R) (hw : vecGet? weights 0 = some w0) (hw0 : 0 ≤ w0)
    (hp : vecGet? particles 0 = some p0) (n : Nat) :
    ∀ (g : Nat) (acc : List (Particle R)),
      resampleLoop lowRandom particles weights N maxWeight 1 n 0 0 g acc
        = some (acc ++ List.replicate n p0, g + n) := by
  have hwheel : wheelLoop weights N 1 (0 + (0 : R) * 2) 0 = some (0, 0) := by
    rw [wheelLoop]
    simp only [hw, zero_mul, add_zero]
    rw [if_neg (not_lt.mpr hw0)]
  induction n with
  | zero => intro g acc; simp [resampleLoop]
  | succ n ih =>
    intro g acc
    rw [resampleLoop]
    simp only [lowRandom, hwheel, hp]
    have h := ih (g + 1) (acc ++ [p0])
    simp only [lowRandom] at h
    rw [h]
    simp only [List.append_assoc, List.singleton_append, List.replicate_succ, Option.some.injEq,
      Prod.mk.injEq, true_and]
    omega

theorem resample_of_loops (rnd : RandomLib R G) (fuel : Nat) (st : FilterState R G)
    (weights : List R) (maxWeight : R) (ps : List (Particle R)) (g : G)
    (hw : weightsLoop st.particles st.num_particles.toNat 0 [] DBL_MIN
      = some (weights, maxWeight))
    (hl : resampleLoop rnd st.particles weights st.num_particles maxWeight fuel
      st.num_particles.toNat 0 (rnd.uniformInt 0 (st.num_particles - 1) st.gen).1
      (rnd.uniformInt 0 (st.num_particles - 1) st.gen).2 [] = some (ps, g)) :
    resample rnd fuel st = some { st with particles := ps, gen := g } := by
  unfold resample
  simp only [hw, hl]

/-- C18 refuted as stated: after `init` on a fresh filter, a `resample` whose start index
is 0 and whose wheel draws are all 0 (the lower end of `[0, maxWeight)`) returns 100 copies
of the first particle; the state is reachable and all its particles have the id 0. -/
theorem resample_repeats_ids :
    ∃ st1 : FilterState ℝ Nat,
      resample lowRandom 1 (init lowRandom 0 0 0 (fun _ => 1) (freshFilter : FilterState ℝ Nat))
        = some st1 ∧
      Reachable realMath lowRandom st1 ∧
      st1.particles.map (fun p => p.id) = List.replicate 100 0 ∧
      ¬ (st1.particles.map (fun p => p.id)).Nodup := by
  have hreach : Reachable realMath lowRandom
      (init lowRandom 0 0 0 (fun _ => 1) (freshFilter : FilterState ℝ Nat)) :=
    Reachable.init freshFilter 0 0 0 (fun _ => 1) rfl rfl
  have hN : (init lowRandom 0 0 0 (fun _ => 1) (freshFilter : FilterState ℝ Nat)).num_particles
      = 100 := by
    simp [init, freshFilter]
  have hlen : (init lowRandom 0 0 0 (fun _ => 1)
      (freshFilter : FilterState ℝ Nat)).particles.length = 100 := by
    simp only [init, freshFilter, Bool.false_eq_true, if_false]
    rw [initLoop_length]
    rfl
  have hp0 : ∃ p, (init lowRandom 0 0 0 (fun _ => 1)
      (freshFilter : FilterState ℝ Nat)).particles[0]? = some p ∧ p.id = 0 ∧ p.weight = 1 := by
    simp only [init, freshFilter, Bool.false_eq_true, if_false]
    have h := initLoop_new (lowRandom : RandomLib ℝ Nat) 0 0 0 (fun _ => 1) (100 : Int).toNat 0
      (lowRandom : RandomLib ℝ Nat).defaultEngine [] 0 (by decide)
    simpa using h
  generalize init lowRandom 0 0 0 (fun _ => 1) (freshFilter : FilterState ℝ Nat) = st0
    at hreach hN hlen hp0
  obtain ⟨p0, hget, hid, hwt⟩ := hp0
  obtain ⟨mw, hmw⟩ := weightsLoop_eq st0.particles st0.num_particles.toNat 0 [] DBL_MIN
    (by rw [hN, hlen]; decide)
  have hws : ([] : List ℝ) ++ ((st0.particles.drop 0).take st0.num_particles.toNat).map
      (fun p => p.weight) = st0.particles.map (fun p => p.weight) := by
    rw [hN, show (100 : Int).toNat = st0.particles.length by rw [hlen]; rfl]
    simp
  rw [hws] at hmw
  simp only [Nat.cast_zero] at hmw
  have hw : vecGet? (st0.particles.map (fun p => p.weight)) 0 = some 1 := by
    simp [vecGet?, hget, hwt]
  have hp : vecGet? st0.particles 0 = some p0 := by
    simp [vecGet?, hget]
  have hloop := resampleLoop_lowRandom st0.particles (st0.particles.map (fun p => p.weight))
    st0.num_particles mw 1 p0 hw zero_le_one hp st0.num_particles.toNat
    ((lowRandom : RandomLib ℝ Nat).uniformInt 0 (st0.num_particles - 1) st0.gen).2 []
  have hres : resample lowRandom 1 st0
      = some { st0 with
          particles := List.replicate st0.num_particles.toNat p0,
          gen := ((lowRandom : RandomLib ℝ Nat).uniformInt 0 (st0.num_particles - 1)
            st0.gen).2 + st0.num_particles.toNat } := by
    have hloop1 : resampleLoop lowRandom st0.particles
        (st0.particles.map (fun p => p.weight)) st0.num_particles mw 1
        st0.num_particles.toNat 0
        ((lowRandom : RandomLib ℝ Nat).uniformInt 0 (st0.num_particles - 1) st0.gen).1
        ((lowRandom : RandomLib ℝ Nat).uniformInt 0 (st0.num_particles - 1) st0.gen).2 []
        = some (List.replicate st0.num_particles.toNat p0,
            ((lowRandom : RandomLib ℝ Nat).uniformInt 0 (st0.num_particles - 1) st0.gen).2
              + st0.num_particles.toNat) := by
      rw [← List.nil_append (List.replicate st0.num_particles.toNat p0)]
      exact hloop
    exact resample_of_loops lowRandom 1 st0 _ mw _ _ hmw hloop1
  refine ⟨_, hres, Reachable.resample st0 _ 1 hreach hres, ?_, ?_⟩
  · simp [hN, hid]
  · simp only [hN, List.map_replicate, hid]
    rw [List.nodup_replicate]
    decide

/-! ## The accumulator of the resampling wheel -/

theorem vecGet?_map {α β : Type} (f : α → β) (l : List α) (i : Int) :
    vecGet? (l.map f) i = (vecGet? l i).map f := by
  unfold vecGet?
  split
  · rfl
  · simp

theorem wheelLoop_exit (weights : List R) (N : Int) (fuel : Nat) :
    ∀ (beta : R) (index : Int) (r : R × Int),
      wheelLoop weights N fuel beta index = some r → 0 < beta →
      0 < r.1 ∧ ∃ w, vecGet? weights r.2 = some w ∧ r.1 ≤ w := by
  induction fuel with
  | zero => intro beta index r h; simp [wheelLoop] at h
  | succ fuel ih =>
    intro beta index r h hb
    rw [wheelLoop] at h
    cases hv : vecGet? weights index with
    | none => simp [hv] at h
    | some w =>
      simp only [hv] at h
      by_cases hgt : beta > w
      · rw [if_pos hgt] at h
        exact ih _ _ _ h (sub_pos.mpr hgt)
      · rw [if_neg hgt, Option.some.injEq] at h
        subst h
        exact ⟨hb, w, hv, not_lt.mp hgt⟩

theorem wheelTrace_inv (rnd : RandomLib R G) (weights : List R) (N : Int) (maxWeight : R)
    (fuel : Nat) (hdraw : ∀ g : G, 0 < (rnd.uniformReal 0 maxWeight g).1) (n : Nat) :
    ∀ (beta : R) (index : Int) (g : G) (tr : List (R × Int)),
      wheelTrace rnd weights N maxWeight fuel n beta index g = some tr → 0 ≤ beta →
      tr.length = n ∧
      ∀ bi ∈ tr, 0 < bi.1 ∧ ∃ w, vecGet? weights bi.2 = some w ∧ bi.1 ≤ w := by
  induction n with
  | zero =>
    intro beta index g tr h _
    simp only [wheelTrace, Option.some.injEq] at h
    subst h
    simp
  | succ n ih =>
    intro beta index g tr h hb
    rw [wheelTrace] at h
    cases hw : wheelLoop weights N fuel (beta + (rnd.uniformReal 0 maxWeight g).1 * 2)
        index with
    | none => simp [hw] at h
    | some bi =>
      simp only [hw] at h
      have hin : 0 < beta + (rnd.uniformReal 0 maxWeight g).1 * 2 := by
        have := hdraw g
        linarith
      obtain ⟨hb1, hex⟩ := wheelLoop_exit weights N fuel _ _ bi hw hin
      cases ht : wheelTrace rnd weights N maxWeight fuel n bi.1 bi.2
          (rnd.uniformReal 0 maxWeight g).2 with
      | none => simp [ht] at h
      | some rest =>
        simp only [ht, Option.some.injEq] at h
        subst h
        obtain ⟨hlen, hall⟩ := ih _ _ _ _ ht (le_of_lt hb1)
        refine ⟨by simp [hlen], ?_⟩
        intro x hx
        rcases List.mem_cons.mp hx with h1 | h1
        · rw [h1]
          exact ⟨hb1, hex⟩
        · exact hall x h1

theorem resampleLoop_trace (rnd : RandomLib R G) (particles : List (Particle R))
    (weights : List R) (N : Int) (maxWeight : R) (fuel : Nat) (n : Nat) :
    ∀ (beta : R) (index : Int) (g : G) (acc out : List (Particle R)) (g1 : G),
      resampleLoop rnd particles weights N maxWeight fuel n beta index g acc = some (out, g1) →
      ∃ (tr : List (R × Int)) (ps : List (Particle R)),
        wheelTrace rnd weights N maxWeight fuel n beta index g = some tr ∧
        out = acc ++ ps ∧
        tr.map (fun bi => vecGet? particles bi.2) = ps.map some := by
  induction n with
  | zero =>
    intro beta index g acc out g1 h
    simp only [resampleLoop, Option.some.injEq, Prod.mk.injEq] at h
    exact ⟨[], [], rfl, by simp [h.1], rfl⟩
  | succ n ih =>
    intro beta index g acc out g1 h
    rw [resampleLoop] at h
    rw [wheelTrace]
    cases hw : wheelLoop weights N fuel (beta + (rnd.uniformReal 0 maxWeight g).1 * 2)
        index with
    | none => simp [hw] at h
    | some bi =>
      simp only [hw] at h ⊢
      cases hp : vecGet? particles bi.2 with
      | none => simp [hp] at h
      | some p =>
        simp only [hp] at h
        obtain ⟨tr, ps, htr, hout, hmap⟩ := ih _ _ _ _ _ _ h
        refine ⟨bi :: tr, p :: ps, by simp only [htr], ?_, ?_⟩
        · rw [hout]
          simp
        · simp only [List.map_cons, hp, hmap]

theorem weightsLoop_max (particles : List (Particle R)) (n : Nat) :
    ∀ (i : Int) (acc : List R) (m : R) (ws : List R) (m1 : R),
      weightsLoop particles n i acc m = some (ws, m1) → m ≤ m1 := by
  induction n with
  | zero =>
    intro i acc m ws m1 h
    simp only [weightsLoop, Option.some.injEq, Prod.mk.injEq] at h
    exact le_of_eq h.2
  | succ n ih =>
    intro i acc m ws m1 h
    rw [weightsLoop] at h
    cases hv : vecGet? particles i with
    | none => simp [hv] at h
    | some p =>
      simp only [hv] at h
      refine le_trans ?_ (ih _ _ _ _ _ h)
      split
      · rename_i hgt
        exact le_of_lt hgt
      · exact le_refl _

theorem DBL_MIN_pos : (0 : R) < DBL_MIN := by
  unfold DBL_MIN
  positivity

/-- C20: on a filter holding `num_particles` particles with non-negative weights, one of
them strictly positive, with a start index in `0 .. num_particles - 1` and strictly
positive wheel draws, `resample` returns, and after each of the `num_particles` selections
the accumulator satisfies `0 < beta ≤ weights[index]` (so `0 ≤ beta ≤ weights[index]`); the
particles of the new collection are the particles at the recorded indices and each has a
strictly positive weight. -/
theorem resample_selects_positive [Archimedean R] (rnd : RandomLib R G)
    (st : FilterState R G)
    (hlen : (st.particles.length : Int) = st.num_particles)
    (hnn : ∀ p ∈ st.particles, 0 ≤ p.weight)
    (hpos : ∃ p ∈ st.particles, 0 < p.weight)
    (hstart : 0 ≤ (rnd.uniformInt 0 (st.num_particles - 1) st.gen).1 ∧
      (rnd.uniformInt 0 (st.num_particles - 1) st.gen).1 ≤ st.num_particles - 1)
    (hdraw : ∀ (maxWeight : R) (g : G), 0 < maxWeight →
      0 < (rnd.uniformReal 0 maxWeight g).1) :
    ∃ (fuel : Nat) (st1 : FilterState R G) (tr : List (R × Int)),
      resample rnd fuel st = some st1 ∧
      resampleTrace rnd fuel st = some tr ∧
      tr.length = st.num_particles.toNat ∧
      (∀ bi ∈ tr, ∃ p, vecGet? st.particles bi.2 = some p ∧ 0 < bi.1 ∧ bi.1 ≤ p.weight) ∧
      tr.map (fun bi => vecGet? st.particles bi.2) = st1.particles.map some ∧
      ∀ p ∈ st1.particles, 0 < p.weight := by
  have hl : st.num_particles.toNat = st.particles.length := by omega
  obtain ⟨mw, hmw⟩ := weightsLoop_eq st.particles st.num_particles.toNat 0 [] DBL_MIN
    (by omega)
  have hws : ([] : List R) ++ ((st.particles.drop 0).take st.num_particles.toNat).map
      (fun p => p.weight) = st.particles.map (fun p => p.weight) := by
    rw [hl]
    simp
  rw [hws] at hmw
  simp only [Nat.cast_zero] at hmw
  have hmwpos : 0 < mw := lt_of_lt_of_le DBL_MIN_pos (weightsLoop_max _ _ _ _ _ _ _ hmw)
  obtain ⟨q, hq, hqpos⟩ := hpos
  obtain ⟨k, hk, hkq⟩ := List.getElem_of_mem hq
  have hj : vecGet? (st.particles.map (fun p => p.weight)) (k : Int) = some q.weight := by
    unfold vecGet?
    rw [if_neg (by omega)]
    simp [List.getElem?_eq_getElem hk, hkq]
  obtain ⟨fuel, r, hr⟩ := resampleLoop_terminates rnd st.particles
    (st.particles.map (fun p => p.weight)) st.num_particles mw hlen (by simp [hlen])
    (by
      intro w hw
      obtain ⟨p, hp, hpw⟩ := List.mem_map.mp hw
      rw [← hpw]
      exact hnn p hp)
    (k : Int) q.weight hj hqpos st.num_particles.toNat 0
    (rnd.uniformInt 0 (st.num_particles - 1) st.gen).1
    (rnd.uniformInt 0 (st.num_particles - 1) st.gen).2 [] hstart.1 (by omega)
  have hres := resample_of_loops rnd fuel st _ mw r.1 r.2 hmw hr
  obtain ⟨tr, ps, htr, hout, hmap⟩ := resampleLoop_trace _ _ _ _ _ _ _ _ _ _ _ _ _ hr
  rw [List.nil_append] at hout
  obtain ⟨htlen, hinv⟩ := wheelTrace_inv rnd _ st.num_particles mw fuel
    (fun g => hdraw mw g hmwpos) _ _ _ _ _ htr (le_refl 0)
  have hinv1 : ∀ bi ∈ tr, ∃ p, vecGet? st.particles bi.2 = some p ∧ 0 < bi.1 ∧
      bi.1 ≤ p.weight := by
    intro bi hbi
    obtain ⟨hb, w, hw, hle⟩ := hinv bi hbi
    rw [vecGet?_map] at hw
    cases hp : vecGet? st.particles bi.2 with
    | none => simp [hp] at hw
    | some p =>
      simp only [hp, Option.map_some', Option.some.injEq] at hw
      exact ⟨p, rfl, hb, by rw [hw]; exact hle⟩
  have htrace : resampleTrace rnd fuel st = some tr := by
    unfold resampleTrace
    simp only [hmw, htr]
  refine ⟨fuel, _, tr, hres, htrace, htlen, hinv1, by simp only [hmap, hout], ?_⟩
  intro p hp
  have hp1 : p ∈ ps := by
    rw [← hout]
    exact hp
  have hsome : some p ∈ tr.map (fun bi => vecGet? st.particles bi.2) := by
    rw [hmap]
    exact List.mem_map_of_mem _ hp1
  obtain ⟨bi, hbi, hbp⟩ := List.mem_map.mp hsome
  obtain ⟨p1, hp1eq, hb, hle⟩ := hinv1 bi hbi
  rw [hbp, Option.some.injEq] at hp1eq
  rw [hp1eq]
  exact lt_of_lt_of_le hb hle

/-- Witness of C20: two particles of weights 1 and 3 over the rationals, start index 0
and every draw the midpoint of `[0, maxWeight)`. -/
theorem resample_selects_positive_witness :
    ((twoParticles : FilterState ℚ Nat).particles.length : Int)
      = (twoParticles : FilterState ℚ Nat).num_particles ∧
    (∃ p ∈ (twoParticles : FilterState ℚ Nat).particles, 0 < p.weight) ∧
    (∀ (maxWeight : ℚ) (g : Nat), 0 < maxWeight →
      0 < ((meanRandom : RandomLib ℚ Nat).uniformReal 0 maxWeight g).1) ∧
    ∃ (fuel : Nat) (st1 : FilterState ℚ Nat) (tr : List (ℚ × Int)),
      resample meanRandom fuel (twoParticles : FilterState ℚ Nat) = some st1 ∧
      resampleTrace meanRandom fuel (twoParticles : FilterState ℚ Nat) = some tr ∧
      tr.length = (twoParticles : FilterState ℚ Nat).num_particles.toNat ∧
      (∀ bi ∈ tr, ∃ p, vecGet? (twoParticles : FilterState ℚ Nat).particles bi.2 = some p ∧
        0 < bi.1 ∧ bi.1 ≤ p.weight) ∧
      tr.map (fun bi => vecGet? (twoParticles : FilterState ℚ Nat).particles bi.2)
        = st1.particles.map some ∧
      ∀ p ∈ st1.particles, 0 < p.weight :=
  have h1 : ((twoParticles : FilterState ℚ Nat).particles.length : Int)
      = (twoParticles : FilterState ℚ Nat).num_particles := rfl
  have h2 : ∀ p ∈ (twoParticles : FilterState ℚ Nat).particles, 0 ≤ p.weight := by
    simp [twoParticles, particleAt]
  have h3 : ∃ p ∈ (twoParticles : FilterState ℚ Nat).particles, 0 < p.weight :=
    ⟨particleAt 1 3, by simp [twoParticles], by simp [particleAt]⟩
  have h4 : ∀ (maxWeight : ℚ) (g : Nat), 0 < maxWeight →
      0 < ((meanRandom : RandomLib ℚ Nat).uniformReal 0 maxWeight g).1 := by
    intro maxWeight g hm
    simp only [meanRandom, zero_add]
    linarith
  ⟨h1, h3, h4, resample_selects_positive meanRandom twoParticles h1 h2 h3
    (by simp [meanRandom, twoParticles]) h4⟩

end Proofs

end ParticleFilter
